/-
  Verification of the work-log aggregation script `m1-3-new-features.py`.

  The script filters Jira work-log records by a date window and accumulates
  hours per developer.  This file gives a shallow embedding of its data model
  and logic:

  * `PyDateTime` models naive `datetime.datetime` values; comparison is the
    lexicographic field order, realised through the injective encoding `key`
    (faithful for field values in `datetime`'s ranges, which every value
    produced by the parsers below satisfies).
  * `strptimeYmdHms` models `datetime.strptime(s, "%Y-%m-%d %H:%M:%S")` as
    used in `parse_args` (the script always appends an explicit ` HH:MM:SS`
    time to the user-supplied date string before parsing).  CPython's
    `_strptime` compiles the format's space to the regex `\s+`, so a run of
    one or more whitespace characters is accepted there.
  * `parseWorklogStarted` models
    `datetime.strptime(s, "%Y-%m-%dT%H:%M:%S.%f-0600")` used on work-log
    `started` strings.  Numeric fields follow CPython `_strptime` regexes:
    `%Y` is exactly four digits, `%m`/`%d` are one or two digits with the
    documented value ranges, `%H`/`%M`/`%S` are one or two digits, `%f` is
    one to six digits (padded to microseconds), the `T` literal is matched
    case-insensitively, and trailing unconverted characters are an error.
    Digits are modelled as ASCII `0`-`9`.
  * Python `round` (banker's rounding: nearest, ties to even) is `pyRound`;
    `round(x, 2)` is `round2`.  The aggregation loop is stated twice: once
    idealised over exact `ℚ` arithmetic (`processWorkItem` and friends),
    and once under the IEEE-754 binary64 semantics of Python floats
    (`roundDouble`, `fadd`, `fdiv`, `pyRoundF2`, `accumulateF`), which is
    what the script actually computes and which separates the two models
    on concrete inputs.
-/
import Mathlib

set_option maxHeartbeats 1000000

/-- ASCII digit test, the `[0-9]` character class of the validation regex. -/
def isDigit (c : Char) : Bool := '0' ≤ c && c ≤ '9'

/-- Numeric value of an ASCII digit character. -/
def digitVal (c : Char) : Nat := c.toNat - '0'.toNat

/-- Naive `datetime.datetime` value (no timezone, as in the script). -/
structure PyDateTime where
  year : Nat
  month : Nat
  day : Nat
  hour : Nat
  minute : Nat
  second : Nat
  micro : Nat
deriving Repr, DecidableEq

/-- Injective encoding of a datetime into `ℕ` realising the lexicographic
field order used by Python's `datetime` comparison (faithful whenever the
fields are within `datetime`'s ranges: month ≤ 12 < 13, day ≤ 31 < 32,
hour ≤ 23 < 24, minute/second ≤ 59 < 60, microsecond < 1000000). -/
def PyDateTime.key (t : PyDateTime) : Nat :=
  (((((t.year * 13 + t.month) * 32 + t.day) * 24 + t.hour) * 60 + t.minute) * 60
    + t.second) * 1000000 + t.micro

/-- `a < b` on datetimes (Python `datetime.__lt__`). -/
def dtLt (a b : PyDateTime) : Bool := a.key < b.key

/-- Python `calendar`-style leap-year rule used by `datetime` validation. -/
def isLeapYear (y : Nat) : Bool := (y % 4 == 0 && y % 100 != 0) || (y % 400 == 0)

/-- Number of days in a month, as enforced by `datetime.__init__`. -/
def daysInMonth (y m : Nat) : Nat :=
  if m = 2 then (if isLeapYear y then 29 else 28)
  else if m = 4 ∨ m = 6 ∨ m = 9 ∨ m = 11 then 30
  else 31

/-- Field validation performed by the `datetime` constructor (`MINYEAR = 1`,
`MAXYEAR = 9999`, month 1-12, day 1-days-in-month). -/
def validDate (y m d : Nat) : Bool :=
  decide (1 ≤ y ∧ y ≤ 9999 ∧ 1 ≤ m ∧ m ≤ 12 ∧ 1 ≤ d ∧ d ≤ daysInMonth y m)

/-- Consume exactly four digits, the CPython `_strptime` regex for `%Y`. -/
def parseYear4 : List Char → Option (Nat × List Char)
  | a :: b :: c :: d :: rest =>
    if isDigit a && isDigit b && isDigit c && isDigit d then
      some (((digitVal a * 10 + digitVal b) * 10 + digitVal c) * 10 + digitVal d, rest)
    else none
  | _ => none

/-- Consume one expected literal character of the format string. -/
def expectChar (c : Char) : List Char → Option (List Char)
  | x :: rest => if x = c then some rest else none
  | [] => none

/-- Consume the literal `T` of the work-log format; `_strptime` compiles the
format with `re.IGNORECASE`, so a lower-case `t` also matches. -/
def expectTee : List Char → Option (List Char)
  | x :: rest => if x = 'T' ∨ x = 't' then some rest else none
  | [] => none

/-- Consume a one-or-two digit numeric field (`%m`, `%d`, `%H`, `%M`, `%S`).
The two-digit alternative applies when both characters are digits and the
value is within `[lo, hi]`; otherwise a single digit is consumed (a leading
zero is only allowed for the fields whose one-digit regex is `\d`, i.e.
`oneAllowsZero = true` for `%H`/`%M`/`%S` and `false` for `%m`/`%d`).
Backtracking cannot help here because every such field is followed by a
non-digit literal (or the end-of-input check), so this deterministic reading
agrees with the regex semantics. -/
def parseNum2 (lo hi : Nat) (oneAllowsZero : Bool) : List Char → Option (Nat × List Char)
  | [] => none
  | [c] =>
    if isDigit c && (oneAllowsZero || !(c = '0' : Bool)) then some (digitVal c, [])
    else none
  | c1 :: c2 :: rest =>
    if isDigit c1 then
      if isDigit c2 then
        if lo ≤ 10 * digitVal c1 + digitVal c2 ∧ 10 * digitVal c1 + digitVal c2 ≤ hi then
          some (10 * digitVal c1 + digitVal c2, rest)
        else none
      else if oneAllowsZero || !(c1 = '0' : Bool) then some (digitVal c1, c2 :: rest)
      else none
    else none

/-- Longest run of leading digits, for the `%f` field (`\d{1,6}`, greedy). -/
def leadingDigits : List Char → List Char × List Char
  | [] => ([], [])
  | c :: rest =>
    if isDigit c then
      let (ds, r) := leadingDigits rest
      (c :: ds, r)
    else ([], c :: rest)

/-- Numeric value of a digit string. -/
def digitsVal (ds : List Char) : Nat := ds.foldl (fun acc c => acc * 10 + digitVal c) 0

/-- The `\s` character class as far as this program can see it (ASCII
whitespace; CPython `_strptime` compiles whitespace in a format string to
`\s+`). -/
def isSpace (c : Char) : Bool :=
  c = ' ' ∨ c = '\t' ∨ c = '\n' ∨ c = '\r' ∨ c = '\x0b' ∨ c = '\x0c'

/-- Drop a (possibly empty) run of leading whitespace. -/
def skipWhite : List Char → List Char
  | [] => []
  | c :: rest => if isSpace c then skipWhite rest else c :: rest

/-- The `\s+` regex fragment that CPython `_strptime` substitutes for each
whitespace character of the format string: at least one whitespace
character, consumed greedily (greediness is faithful here because in the
only format using this, the fragment is followed by a digit field, and a
digit is never whitespace). -/
def parseWhite : List Char → Option (List Char)
  | [] => none
  | c :: rest => if isSpace c then some (skipWhite rest) else none

/-- The `%Y-%m-%d` segment shared by both format strings of the script. -/
def parseYmd (cs : List Char) : Option (Nat × Nat × Nat × List Char) := do
  let (y, r1) ← parseYear4 cs
  let r2 ← expectChar '-' r1
  let (m, r3) ← parseNum2 1 12 false r2
  let r4 ← expectChar '-' r3
  let (d, r5) ← parseNum2 1 31 false r4
  some (y, m, d, r5)

/-- The `%H:%M:%S` segment shared by both format strings of the script. -/
def parseHms (cs : List Char) : Option (Nat × Nat × Nat × List Char) := do
  let (hh, r1) ← parseNum2 0 23 true cs
  let r2 ← expectChar ':' r1
  let (mi, r3) ← parseNum2 0 59 true r2
  let r4 ← expectChar ':' r3
  let (ss, r5) ← parseNum2 0 59 true r4
  some (hh, mi, ss, r5)

/-- Model of `datetime.strptime(cs, "%Y-%m-%d %H:%M:%S")`: the regex match of
the converted format (where `_strptime` compiles the format's space to
`\s+`, so any nonempty whitespace run matches there) followed by the
"unconverted data remains" check and the `datetime` constructor
validation. -/
def strptimeYmdHms (cs : List Char) : Option (Nat × Nat × Nat × Nat × Nat × Nat) := do
  let (y, m, d, r5) ← parseYmd cs
  let r6 ← parseWhite r5
  let (hh, mi, ss, r11) ← parseHms r6
  if r11 = [] ∧ validDate y m d = true then some (y, m, d, hh, mi, ss) else none

/-- Model of line 48 resp. 53 of the script:
`datetime.strptime(s + timeSuffixStr, "%Y-%m-%d %H:%M:%S")`, returning the
parsed datetime (microseconds are zero when the format has no `%f`). -/
def validateDateArg (s timeSuffixStr : String) : Option PyDateTime :=
  match strptimeYmdHms (s ++ timeSuffixStr).data with
  | some (y, m, d, hh, mi, ss) => some ⟨y, m, d, hh, mi, ss, 0⟩
  | none => none

/-- Model of `re.match(r'[0-9]{4}-[0-9]{2}-[0-9]{2}', s)` (line 41/44):
`re.match` anchors at the start only, so this is a test on a ten-character
PREFIX of the string; trailing characters are not inspected. -/
def reMatchYMD (s : String) : Bool :=
  match s.data with
  | a :: b :: c :: d :: s1 :: e :: f :: s2 :: g :: h :: _ =>
    isDigit a && isDigit b && isDigit c && isDigit d && s1 == '-' &&
    isDigit e && isDigit f && s2 == '-' && isDigit g && isDigit h
  | _ => false

/-- Read a string that consists EXACTLY of ten characters `dddd-dd-dd` as its
`(year, month, day)` digits.  This follows the spec's wording of the
`YYYY-MM-DD` shape (the whole string has that shape), used to compare the
spec's claim with the prefix-only test the code performs. -/
def readYMD (s : String) : Option (Nat × Nat × Nat) :=
  match s.data with
  | [a, b, c, d, s1, e, f, s2, g, h] =>
    if isDigit a && isDigit b && isDigit c && isDigit d && (s1 == '-') &&
       isDigit e && isDigit f && (s2 == '-') && isDigit g && isDigit h then
      some (((digitVal a * 10 + digitVal b) * 10 + digitVal c) * 10 + digitVal d,
            10 * digitVal e + digitVal f, 10 * digitVal g + digitVal h)
    else none
  | _ => none

/-- Whether an exactly-shaped string denotes a real calendar date. -/
def validYMD (s : String) : Bool :=
  match readYMD s with
  | some (y, m, d) => validDate y m d
  | none => false

/-- Read the first ten characters of a string as `dddd-dd-dd`, returning the
`(year, month, day)` values of that prefix together with the remaining
characters.  This is exactly the prefix shape that `reMatchYMD` tests,
enriched with the values the prefix denotes; it is used to characterise
which prefix-shaped arguments `strptime` accepts. -/
def readYMD10 (s : String) : Option (Nat × Nat × Nat × List Char) :=
  match s.data with
  | a :: b :: c :: d :: s1 :: e :: f :: s2 :: g :: h :: rest =>
    if isDigit a && isDigit b && isDigit c && isDigit d && (s1 == '-') &&
       isDigit e && isDigit f && (s2 == '-') && isDigit g && isDigit h then
      some (((digitVal a * 10 + digitVal b) * 10 + digitVal c) * 10 + digitVal d,
            10 * digitVal e + digitVal f, 10 * digitVal g + digitVal h, rest)
    else none
  | _ => none

/-- Outcomes of the date-argument validation in `parse_args` (lines 41-56).
`invalidFormatStart` and `invalidFormatEnd` are the
"argument must take YYYY-MM-DD format" errors for `-startdate` and
`-enddate`; `invalidDateStart` and `invalidDateEnd` are the
"Start (resp. End) date ... is not a valid date" errors.  Each is printed to stdout
and followed by `sys.exit(-1)`. -/
inductive DateError where
  | invalidFormatStart
  | invalidFormatEnd
  | invalidDateStart
  | invalidDateEnd
deriving Repr, DecidableEq

/-- Lines 41-56 of `parse_args`: both regex format checks run first (start
then end), then `strptime` of the start date with `" 00:00:01"` appended,
then `strptime` of the end date with `" 23:59:59"` appended. -/
def parse_args_dates (startStr endStr : String) : Except DateError (PyDateTime × PyDateTime) :=
  if !reMatchYMD startStr then .error .invalidFormatStart
  else if !reMatchYMD endStr then .error .invalidFormatEnd
  else
    match validateDateArg startStr " 00:00:01" with
    | none => .error .invalidDateStart
    | some start_datetime =>
      match validateDateArg endStr " 23:59:59" with
      | none => .error .invalidDateEnd
      | some end_datetime => .ok (start_datetime, end_datetime)

/-- Result of `parse_args` (lines 22-62).  `usage` is the
`print_help(); sys.exit(-1)` path: the usage message goes to stderr and the
exit status is non-zero, before any date validation and before any Jira
call (the Jira connection happens only later, in `main`). -/
inductive ArgsResult where
  | usage
  | dateError (e : DateError)
  | ok (start_datetime end_datetime : PyDateTime) (detailed : Bool)
deriving Repr, DecidableEq

/-- `parse_args`: the `len(sys.argv) not in [5, 6]` guard (line 27) runs
before everything else; `startStr`, `endStr` and `detailed` stand for the
values argparse extracts from `argv` (argparse mechanics are outside the
modelled core). -/
def parse_args (argv : List String) (startStr endStr : String) (detailed : Bool) :
    ArgsResult :=
  if argv.length = 5 ∨ argv.length = 6 then
    match parse_args_dates startStr endStr with
    | .error e => .dateError e
    | .ok (start_datetime, end_datetime) => .ok start_datetime end_datetime detailed
  else .usage

deriving instance DecidableEq for Except

/-- Model of `datetime.strptime(s, "%Y-%m-%dT%H:%M:%S.%f-0600")` (lines 105
and 122), applied to a work-log record's `started` string.  `-0600` carries
no `%` directive, so it is five literal characters that must end the
string. -/
def parseWorklogStarted (s : String) : Option PyDateTime := do
  let (y, m, d, r5) ← parseYmd s.data
  let r6 ← expectTee r5
  let (hh, mi, ss, r11) ← parseHms r6
  let r12 ← expectChar '.' r11
  let (ds, r13) := leadingDigits r12
  if r13 = ['-', '0', '6', '0', '0'] ∧ 1 ≤ ds.length ∧ ds.length ≤ 6 ∧
      validDate y m d = true then
    some ⟨y, m, d, hh, mi, ss, digitsVal ds * 10 ^ (6 - ds.length)⟩
  else none

/-- Python `round(q)` idealised over `ℚ`: round to the nearest integer,
ties to even (CPython's documented behaviour for `round`). -/
def pyRound (q : ℚ) : ℤ :=
  if q - ⌊q⌋ < 1 / 2 then ⌊q⌋
  else if (1 : ℚ) / 2 < q - ⌊q⌋ then ⌊q⌋ + 1
  else if ⌊q⌋ % 2 = 0 then ⌊q⌋ else ⌊q⌋ + 1

/-- Python `round(q, 2)` idealised over `ℚ` (exact arithmetic; the binary64
effects of the script's actual float arithmetic are modelled separately by
`roundDouble`, `fadd`, `fdiv` and `pyRoundF2` below). -/
def round2 (q : ℚ) : ℚ := (pyRound (q * 100) : ℚ) / 100

/-- One Jira work-log record as the script reads it: the author's
`displayName`, the raw `started` string, and `timeSpentSeconds`. -/
structure WorkItem where
  authorDisplayName : String
  started : String
  timeSpentSeconds : Nat
deriving Repr, DecidableEq

/-- One line printed inside the aggregation loops in detailed mode.
`issueHeader` stands for the `print` of the issue (line 109) or subtask
(line 126) header; `workDetail` for the per-record line (lines 114/131),
whose displayed start time is truncated to second precision (the `%f`
microseconds and the `-0600` suffix are cut off before re-formatting with
`%Y-%m-%d %H:%M:%S`). -/
inductive OutLine where
  | issueHeader (key summary : String)
  | workDetail (author : String) (hours : ℚ) (startedDisplay : PyDateTime)
deriving Repr, DecidableEq

/-- The two ways the aggregation loop's body can raise: the unhandled
`ValueError` from `datetime.strptime` on a malformed `started` string
(line 105/122), and the unhandled `KeyError` from
`developer_hours[author] += ...` on an author missing from the table
(line 115/132).  Either one aborts the run with a traceback naming the
offending value and a non-zero exit status. -/
inductive RunError where
  | strptimeError (started : String)
  | keyError (author : String)
deriving Repr, DecidableEq

/-- First value bound to a key in an association list
(Python `dict` lookup; the table never holds duplicate keys in the script,
and updates below only ever touch the first occurrence, so first-match
semantics are faithful). -/
def lookup2 : List (String × ℚ) → String → Option ℚ
  | [], _ => none
  | (k, v) :: rest, a => if k = a then some v else lookup2 rest a

/-- `developer_hours[a] += x` (line 115/132): `none` models the `KeyError`
raised when `a` is not a key of the table; no key is ever inserted. -/
def addToKey : List (String × ℚ) → String → ℚ → Option (List (String × ℚ))
  | [], _, _ => none
  | (k, v) :: rest, a, x =>
    if k = a then some ((k, v + x) :: rest)
    else
      match addToKey rest a x with
      | some rest2 => some ((k, v) :: rest2)
      | none => none

/-- The in-window test of lines 107 and 124:
`work_datetime > start_datetime and work_datetime < end_datetime`,
strict on both ends. -/
def inWindow (start_datetime end_datetime work_datetime : PyDateTime) : Bool :=
  dtLt start_datetime work_datetime && dtLt work_datetime end_datetime

/-- Whether a record would be counted: its `started` string parses and the
parsed datetime lies strictly inside the window. -/
def countedb (start_datetime end_datetime : PyDateTime) (w : WorkItem) : Bool :=
  match parseWorklogStarted w.started with
  | some work_datetime => inWindow start_datetime end_datetime work_datetime
  | none => false

/-- Mutable state of one work-log `for` loop: the `developer_hours` table,
the text printed so far, and the `display_issue_header`
(resp. `display_subtask_header`) flag. -/
structure LoopState where
  developer_hours : List (String × ℚ)
  output : List OutLine
  display_issue_header : Bool
deriving Repr, DecidableEq

/-- Body of the work-log loops (lines 104-115 for an issue's own work-log,
121-132 for a subtask's; the two bodies are identical up to indentation of
the printed text).  Order inside the in-window branch follows the source:
header print, detail print, then the accumulation (whose `KeyError`, if
any, fires after the prints).  Arithmetic is idealised over `ℚ`: the real
accumulation `+= round(secs/3600, 2)` acts on binary64 doubles, whose
rounding is modelled separately by `accumulateF` below. -/
def processWorkItem (detailed : Bool) (start_datetime end_datetime : PyDateTime)
    (key summary : String) (st : LoopState) (w : WorkItem) :
    Except RunError LoopState :=
  match parseWorklogStarted w.started with
  | none => .error (.strptimeError w.started)
  | some work_datetime =>
    if inWindow start_datetime end_datetime work_datetime then
      let out1 := if st.display_issue_header && detailed then
          st.output ++ [.issueHeader key summary]
        else st.output
      let flag1 := if st.display_issue_header && detailed then false
        else st.display_issue_header
      let out2 := if detailed then
          out1 ++ [.workDetail w.authorDisplayName
            (round2 ((w.timeSpentSeconds : ℚ) / 3600))
            { work_datetime with micro := 0 }]
        else out1
      match addToKey st.developer_hours w.authorDisplayName
          (round2 ((w.timeSpentSeconds : ℚ) / 3600)) with
      | none => .error (.keyError w.authorDisplayName)
      | some h => .ok ⟨h, out2, flag1⟩
    else .ok st

/-- One whole work-log `for` loop over its records, in supplied order. -/
def processWorklog (detailed : Bool) (start_datetime end_datetime : PyDateTime)
    (key summary : String) (st : LoopState) :
    List WorkItem → Except RunError LoopState
  | [] => .ok st
  | w :: rest =>
    match processWorkItem detailed start_datetime end_datetime key summary st w with
    | .error e => .error e
    | .ok st2 => processWorklog detailed start_datetime end_datetime key summary st2 rest

/-- A Jira subtask as consumed by the script. -/
structure Subtask where
  key : String
  summary : String
  worklog : List WorkItem
deriving Repr, DecidableEq

/-- A Jira issue: its own work-log plus its subtasks. -/
structure Issue where
  key : String
  summary : String
  worklog : List WorkItem
  subtasks : List Subtask
deriving Repr, DecidableEq

/-- Lines 118-132: the subtask loop of one issue.  Each subtask starts with
a fresh `display_subtask_header = True`. -/
def processSubtasks (detailed : Bool) (start_datetime end_datetime : PyDateTime)
    (acc : List (String × ℚ) × List OutLine) :
    List Subtask → Except RunError (List (String × ℚ) × List OutLine)
  | [] => .ok acc
  | s :: rest =>
    match processWorklog detailed start_datetime end_datetime s.key s.summary
        ⟨acc.1, acc.2, true⟩ s.worklog with
    | .error e => .error e
    | .ok st => processSubtasks detailed start_datetime end_datetime
        (st.developer_hours, st.output) rest

/-- Lines 101-132: the main loop over all returned issues.  Each issue
starts with a fresh `display_issue_header = True`, processes its own
work-log, then its subtasks. -/
def processIssues (detailed : Bool) (start_datetime end_datetime : PyDateTime)
    (acc : List (String × ℚ) × List OutLine) :
    List Issue → Except RunError (List (String × ℚ) × List OutLine)
  | [] => .ok acc
  | i :: rest =>
    match processWorklog detailed start_datetime end_datetime i.key i.summary
        ⟨acc.1, acc.2, true⟩ i.worklog with
    | .error e => .error e
    | .ok st =>
      match processSubtasks detailed start_datetime end_datetime
          (st.developer_hours, st.output) i.subtasks with
      | .error e => .error e
      | .ok acc2 => processIssues detailed start_datetime end_datetime acc2 rest

/-- All work-log records of a run, in traversal order: for each issue its
own records first, then its subtasks' records. -/
def allWorkItems (issues : List Issue) : List WorkItem :=
  (issues.map (fun i => i.worklog ++ (i.subtasks.map Subtask.worklog).flatten)).flatten

/-- The hard-coded `developer_hours` roster (lines 87-97), every total
initialised to zero. -/
def developer_hours_init : List (String × ℚ) :=
  [("Mark Coatsworth", 0), ("Jaime Frey", 0), ("John (TJ) Knoeller", 0),
   ("Todd L Miller", 0), ("Zach Miller", 0), ("Jason Patton", 0),
   ("Todd Tannenbaum", 0), ("Greg Thain", 0), ("Tim Theisen", 0)]

/-- Line 135-139: `total_hours_logged`, the sum of the raw accumulator
values in table order. -/
def total_hours_logged (developer_hours : List (String × ℚ)) : ℚ :=
  (developer_hours.map Prod.snd).sum

/-- Line 138: the per-author hours as displayed, `round(v, 2)` of each
accumulated total. -/
def reportedAuthorHours (developer_hours : List (String × ℚ)) : List (String × ℚ) :=
  developer_hours.map (fun p => (p.1, round2 p.2))

/-- Line 143: `round(total_hours_logged * 100 / (len(developer_hours) * 40))`. -/
def reportPercentage (developer_hours : List (String × ℚ)) : ℤ :=
  pyRound (total_hours_logged developer_hours * 100 /
    ((developer_hours.length : ℚ) * 40))

/-! ### IEEE-754 binary64 micro-model

The script's arithmetic really happens on Python floats (IEEE-754 binary64
doubles).  For nonzero values well inside the normal range — which covers
every value in the counterexamples below — a double is obtained from a
rational by rounding its 53-bit significand to nearest, ties to even. -/

/-- Round a rational to the nearest binary64 double (normal range:
ties-to-even rounding of the 53-bit significand, expressed through
`pyRound` after scaling by the value's binary exponent). -/
def roundDouble (q : ℚ) : ℚ :=
  if q = 0 then 0
  else if 0 < q then
    (pyRound (q * (2 : ℚ) ^ (52 - Int.log 2 q)) : ℚ) * (2 : ℚ) ^ (Int.log 2 q - 52)
  else
    -((pyRound (-q * (2 : ℚ) ^ (52 - Int.log 2 (-q))) : ℚ) *
      (2 : ℚ) ^ (Int.log 2 (-q) - 52))

/-- Binary64 addition: exact sum, then one rounding. -/
def fadd (x y : ℚ) : ℚ := roundDouble (x + y)

/-- Binary64 division: exact quotient, then one rounding. -/
def fdiv (x y : ℚ) : ℚ := roundDouble (x / y)

/-- CPython `round(x, 2)` on a double `x`: correctly rounded, i.e. the
exact decimal rounding `round2` of the double's value, rounded back to a
double. -/
def pyRoundF2 (x : ℚ) : ℚ := roundDouble (round2 x)

/-- The double added to `developer_hours[...]` for one record at line
115/132: `round(timeSpentSeconds/3600, 2)` computed in floats (the integer
`timeSpentSeconds` and the literal `3600` convert to doubles exactly at the
sizes at hand). -/
def floatHours (w : WorkItem) : ℚ := pyRoundF2 (fdiv (w.timeSpentSeconds : ℚ) 3600)

/-- One author's accumulator across a list of their records under the real
float semantics: the fold of `+= round(secs/3600, 2)` at line 115/132
started from `init` (0 at lines 88-96), each addition rounding once. -/
def accumulateF (init : ℚ) : List WorkItem → ℚ
  | [] => init
  | w :: rest => accumulateF (fadd init (floatHours w)) rest

/-! ### Rounding lemmas -/

/-- A rational is a whole number of hundredths (the granularity produced by
`round(x, 2)`). -/
def IsCenti (q : ℚ) : Prop := ∃ n : ℤ, q = (n : ℚ) / 100

theorem pyRound_intCast (n : ℤ) : pyRound (n : ℚ) = n := by
  simp [pyRound, Int.floor_intCast]

theorem isCenti_round2 (q : ℚ) : IsCenti (round2 q) := ⟨pyRound (q * 100), rfl⟩

theorem isCenti_zero : IsCenti 0 := ⟨0, by norm_num⟩

theorem IsCenti.add {a b : ℚ} (ha : IsCenti a) (hb : IsCenti b) : IsCenti (a + b) := by
  obtain ⟨n, rfl⟩ := ha
  obtain ⟨m, rfl⟩ := hb
  exact ⟨n + m, by push_cast; ring⟩

theorem round2_of_isCenti {q : ℚ} (h : IsCenti q) : round2 q = q := by
  obtain ⟨n, rfl⟩ := h
  have h100 : ((n : ℚ) / 100) * 100 = (n : ℚ) := by
    field_simp
  rw [round2, h100, pyRound_intCast]

theorem int_log_eq_of {q : ℚ} {e : ℤ} (h0 : 0 < q)
    (h1 : (2 : ℚ) ^ e ≤ q) (h2 : q < (2 : ℚ) ^ (e + 1)) : Int.log 2 q = e := by
  have ha : e ≤ Int.log 2 q := by
    rw [← Int.zpow_le_iff_le_log (by norm_num) h0]
    exact_mod_cast h1
  have hb : Int.log 2 q < e + 1 := by
    rw [← Int.lt_zpow_iff_log_lt (by norm_num) h0]
    exact_mod_cast h2
  omega

theorem roundDouble_eval (q : ℚ) (e : ℤ) (h0 : 0 < q)
    (h1 : (2 : ℚ) ^ e ≤ q) (h2 : q < (2 : ℚ) ^ (e + 1)) :
    roundDouble q = (pyRound (q * (2 : ℚ) ^ (52 - e)) : ℚ) * (2 : ℚ) ^ (e - 52) := by
  rw [roundDouble, if_neg (ne_of_gt h0), if_pos h0, int_log_eq_of h0 h1 h2]

/-! ### Association-list lemmas for the `developer_hours` table -/

theorem addToKey_keys {h : List (String × ℚ)} {a : String} {x : ℚ}
    {h2 : List (String × ℚ)} (he : addToKey h a x = some h2) :
    h2.map Prod.fst = h.map Prod.fst := by
  induction h generalizing h2 with
  | nil => simp [addToKey] at he
  | cons p rest ih =>
    obtain ⟨k, v⟩ := p
    by_cases hk : k = a
    · simp [addToKey, hk] at he
      subst he
      simp [hk]
    · simp only [addToKey, if_neg hk] at he
      cases hr : addToKey rest a x with
      | none => rw [hr] at he; simp at he
      | some rest2 =>
        rw [hr] at he
        simp at he
        subst he
        simp [ih hr]

theorem addToKey_lookup {h : List (String × ℚ)} {a : String} {x : ℚ}
    {h2 : List (String × ℚ)} (he : addToKey h a x = some h2) (b : String) :
    lookup2 h2 b = if b = a then (lookup2 h a).map (· + x) else lookup2 h b := by
  induction h generalizing h2 with
  | nil => simp [addToKey] at he
  | cons p rest ih =>
    obtain ⟨k, v⟩ := p
    by_cases hk : k = a
    · simp only [addToKey, if_pos hk] at he
      simp at he
      subst he
      subst hk
      by_cases hb : b = k
      · subst hb
        simp [lookup2]
      · simp [lookup2, hb, Ne.symm hb]
    · simp only [addToKey, if_neg hk] at he
      cases hr : addToKey rest a x with
      | none => rw [hr] at he; simp at he
      | some rest2 =>
        rw [hr] at he
        simp at he
        subst he
        by_cases hb : b = k
        · subst hb
          simp [lookup2, hk, Ne.symm hk]
        · simp [lookup2, Ne.symm hb, ih hr, hk]

theorem addToKey_isSome_iff {h : List (String × ℚ)} {a : String} {x : ℚ} :
    (addToKey h a x).isSome = true ↔ a ∈ h.map Prod.fst := by
  induction h with
  | nil => simp [addToKey]
  | cons p rest ih =>
    obtain ⟨k, v⟩ := p
    by_cases hk : k = a
    · simp [addToKey, hk]
    · simp only [addToKey, if_neg hk]
      cases hr : addToKey rest a x with
      | none =>
        rw [hr] at ih
        simp at ih
        simp [ih, hk, Ne.symm hk]
      | some rest2 =>
        rw [hr] at ih
        simp at ih
        simp [ih, hk, Ne.symm hk]

theorem lookup2_isSome_iff {h : List (String × ℚ)} {a : String} :
    (lookup2 h a).isSome = true ↔ a ∈ h.map Prod.fst := by
  induction h with
  | nil => simp [lookup2]
  | cons p rest ih =>
    obtain ⟨k, v⟩ := p
    by_cases hk : k = a
    · simp [lookup2, hk]
    · simp [lookup2, hk, Ne.symm hk, ih]

theorem addToKey_allCenti {h : List (String × ℚ)} {a : String} {x : ℚ}
    {h2 : List (String × ℚ)} (he : addToKey h a x = some h2)
    (hc : ∀ p ∈ h, IsCenti p.2) (hx : IsCenti x) :
    ∀ p ∈ h2, IsCenti p.2 := by
  induction h generalizing h2 with
  | nil => simp [addToKey] at he
  | cons p rest ih =>
    obtain ⟨k, v⟩ := p
    by_cases hk : k = a
    · simp only [addToKey, if_pos hk] at he
      simp at he
      subst he
      intro q hq
      rcases List.mem_cons.1 hq with h1 | h2
      · subst h1
        exact (hc (k, v) (by simp)).add hx
      · exact hc q (List.mem_cons_of_mem _ h2)
    · simp only [addToKey, if_neg hk] at he
      cases hr : addToKey rest a x with
      | none => rw [hr] at he; simp at he
      | some rest2 =>
        rw [hr] at he
        simp at he
        subst he
        intro q hq
        rcases List.mem_cons.1 hq with h1 | h2
        · subst h1
          exact hc (k, v) (by simp)
        · exact ih hr (fun p hp => hc p (List.mem_cons_of_mem _ hp)) q h2

/-! ### Structural lemmas about the strptime models -/

theorem expectChar_shape {c : Char} {cs r : List Char}
    (h : expectChar c cs = some r) : cs = c :: r := by
  cases cs with
  | nil => simp [expectChar] at h
  | cons x rest =>
    by_cases hx : x = c
    · simp [expectChar, hx] at h
      simp [hx, h]
    · simp [expectChar, hx] at h

theorem expectTee_shape {cs r : List Char}
    (h : expectTee cs = some r) : ∃ x, cs = x :: r := by
  cases cs with
  | nil => simp [expectTee] at h
  | cons x rest =>
    by_cases hx : x = 'T' ∨ x = 't'
    · simp [expectTee, hx] at h
      exact ⟨x, by rw [h]⟩
    · simp [expectTee, hx] at h

theorem parseYear4_shape {cs : List Char} {y : Nat} {r : List Char}
    (h : parseYear4 cs = some (y, r)) :
    ∃ a b c d, cs = a :: b :: c :: d :: r ∧
      isDigit a = true ∧ isDigit b = true ∧ isDigit c = true ∧ isDigit d = true ∧
      y = ((digitVal a * 10 + digitVal b) * 10 + digitVal c) * 10 + digitVal d := by
  rcases cs with _ | ⟨a, _ | ⟨b, _ | ⟨c, _ | ⟨d, rest⟩⟩⟩⟩ <;>
    simp only [parseYear4] at h
  · exact absurd h (by simp)
  · exact absurd h (by simp)
  · exact absurd h (by simp)
  · exact absurd h (by simp)
  · by_cases h4 : (isDigit a && isDigit b && isDigit c && isDigit d) = true
    · rw [if_pos h4] at h
      simp at h
      simp at h4
      obtain ⟨hy, hr⟩ := h
      exact ⟨a, b, c, d, by rw [hr], h4.1.1.1, h4.1.1.2, h4.1.2, h4.2, hy.symm⟩
    · rw [if_neg h4] at h
      simp at h

theorem parseNum2_shape {lo hi : Nat} {z : Bool} {cs : List Char} {v : Nat}
    {r : List Char} (h : parseNum2 lo hi z cs = some (v, r)) :
    (∃ c1 c2, cs = c1 :: c2 :: r ∧ isDigit c1 = true ∧ isDigit c2 = true ∧
       v = 10 * digitVal c1 + digitVal c2 ∧ lo ≤ v ∧ v ≤ hi) ∨
    (∃ c1, cs = c1 :: r ∧ isDigit c1 = true ∧ v = digitVal c1) := by
  rcases cs with _ | ⟨c1, _ | ⟨c2, rest⟩⟩
  · simp [parseNum2] at h
  · simp only [parseNum2] at h
    by_cases h1 : (isDigit c1 && (z || !(c1 = '0' : Bool))) = true
    · rw [if_pos h1] at h
      simp at h
      simp at h1
      exact .inr ⟨c1, by simp [h.2], h1.1, h.1.symm⟩
    · rw [if_neg h1] at h
      simp at h
  · simp only [parseNum2] at h
    by_cases h1 : isDigit c1 = true
    · rw [if_pos h1] at h
      by_cases h2 : isDigit c2 = true
      · rw [if_pos h2] at h
        by_cases h3 : lo ≤ 10 * digitVal c1 + digitVal c2 ∧
            10 * digitVal c1 + digitVal c2 ≤ hi
        · rw [if_pos h3] at h
          simp at h
          exact .inl ⟨c1, c2, by simp [h.2], h1, h2, h.1.symm,
            by omega, by rw [← h.1]; exact h3.2⟩
        · rw [if_neg h3] at h
          simp at h
      · rw [if_neg h2] at h
        by_cases h4 : (z || !(c1 = '0' : Bool)) = true
        · rw [if_pos h4] at h
          simp at h
          exact .inr ⟨c1, by simp [h.2], h1, h.1.symm⟩
        · rw [if_neg h4] at h
          simp at h
    · rw [if_neg h1] at h
      simp at h

theorem leadingDigits_split :
    ∀ cs : List Char, (leadingDigits cs).1 ++ (leadingDigits cs).2 = cs ∧
      ∀ c ∈ (leadingDigits cs).1, isDigit c = true := by
  intro cs
  induction cs with
  | nil => simp [leadingDigits]
  | cons c rest ih =>
    by_cases hc : isDigit c = true
    · simp only [leadingDigits, hc, if_true]
      constructor
      · simp [ih.1]
      · intro x hx
        rcases List.mem_cons.1 hx with h1 | h2
        · rw [h1]; exact hc
        · exact ih.2 x h2
    · simp [leadingDigits, hc]

theorem parseYmd_inv {cs : List Char} {y m d : Nat} {r : List Char}
    (h : parseYmd cs = some (y, m, d, r)) :
    ∃ r1 r2 r3 r4, parseYear4 cs = some (y, r1) ∧ expectChar '-' r1 = some r2 ∧
      parseNum2 1 12 false r2 = some (m, r3) ∧ expectChar '-' r3 = some r4 ∧
      parseNum2 1 31 false r4 = some (d, r) := by
  unfold parseYmd at h
  cases h1 : parseYear4 cs with
  | none => rw [h1] at h; simp at h
  | some p =>
    obtain ⟨y2, r1⟩ := p
    rw [h1] at h
    simp only [bind, Option.bind] at h
    cases h2 : expectChar '-' r1 with
    | none => rw [h2] at h; simp at h
    | some r2 =>
      rw [h2] at h
      simp only [bind, Option.bind] at h
      cases h3 : parseNum2 1 12 false r2 with
      | none => rw [h3] at h; simp at h
      | some p3 =>
        obtain ⟨m2, r3⟩ := p3
        rw [h3] at h
        simp only [bind, Option.bind] at h
        cases h4 : expectChar '-' r3 with
        | none => rw [h4] at h; simp at h
        | some r4 =>
          rw [h4] at h
          simp only [bind, Option.bind] at h
          cases h5 : parseNum2 1 31 false r4 with
          | none => rw [h5] at h; simp at h
          | some p5 =>
            obtain ⟨d2, r5⟩ := p5
            rw [h5] at h
            simp only [bind, Option.bind] at h
            simp at h
            obtain ⟨hy, hm, hd, hr⟩ := h
            subst hy; subst hm; subst hd; subst hr
            exact ⟨r1, r2, r3, r4, rfl, h2, h3, h4, h5⟩

theorem parseHms_inv {cs : List Char} {hh mi ss : Nat} {r : List Char}
    (h : parseHms cs = some (hh, mi, ss, r)) :
    ∃ r1 r2 r3 r4, parseNum2 0 23 true cs = some (hh, r1) ∧
      expectChar ':' r1 = some r2 ∧ parseNum2 0 59 true r2 = some (mi, r3) ∧
      expectChar ':' r3 = some r4 ∧ parseNum2 0 59 true r4 = some (ss, r) := by
  unfold parseHms at h
  cases h1 : parseNum2 0 23 true cs with
  | none => rw [h1] at h; simp at h
  | some p =>
    obtain ⟨a2, r1⟩ := p
    rw [h1] at h
    simp only [bind, Option.bind] at h
    cases h2 : expectChar ':' r1 with
    | none => rw [h2] at h; simp at h
    | some r2 =>
      rw [h2] at h
      simp only [bind, Option.bind] at h
      cases h3 : parseNum2 0 59 true r2 with
      | none => rw [h3] at h; simp at h
      | some p3 =>
        obtain ⟨b2, r3⟩ := p3
        rw [h3] at h
        simp only [bind, Option.bind] at h
        cases h4 : expectChar ':' r3 with
        | none => rw [h4] at h; simp at h
        | some r4 =>
          rw [h4] at h
          simp only [bind, Option.bind] at h
          cases h5 : parseNum2 0 59 true r4 with
          | none => rw [h5] at h; simp at h
          | some p5 =>
            obtain ⟨c2, r5⟩ := p5
            rw [h5] at h
            simp only [bind, Option.bind] at h
            simp at h
            obtain ⟨ha, hb, hc, hr⟩ := h
            subst ha; subst hb; subst hc; subst hr
            exact ⟨r1, r2, r3, r4, rfl, h2, h3, h4, h5⟩

theorem strptimeYmdHms_inv {cs : List Char} {v : Nat × Nat × Nat × Nat × Nat × Nat}
    (h : strptimeYmdHms cs = some v) :
    ∃ y m d r5 r6 hh mi ss, parseYmd cs = some (y, m, d, r5) ∧
      parseWhite r5 = some r6 ∧ parseHms r6 = some (hh, mi, ss, []) ∧
      validDate y m d = true ∧ v = (y, m, d, hh, mi, ss) := by
  unfold strptimeYmdHms at h
  cases h1 : parseYmd cs with
  | none => rw [h1] at h; simp at h
  | some p =>
    obtain ⟨y, m, d, r5⟩ := p
    rw [h1] at h
    simp only [bind, Option.bind] at h
    cases h2 : parseWhite r5 with
    | none => rw [h2] at h; simp at h
    | some r6 =>
      rw [h2] at h
      simp only [bind, Option.bind] at h
      cases h3 : parseHms r6 with
      | none => rw [h3] at h; simp at h
      | some p3 =>
        obtain ⟨hh, mi, ss, r11⟩ := p3
        rw [h3] at h
        simp only [bind, Option.bind] at h
        by_cases h4 : r11 = [] ∧ validDate y m d = true
        · rw [if_pos h4] at h
          simp at h
          refine ⟨y, m, d, r5, r6, hh, mi, ss, rfl, h2, ?_, h4.2, h.symm⟩
          rw [← h4.1]
          exact h3
        · rw [if_neg h4] at h
          simp at h

theorem parseWorklogStarted_inv {s : String} {dt : PyDateTime}
    (h : parseWorklogStarted s = some dt) :
    ∃ y m d r5 r6 hh mi ss r11 r12 ds,
      parseYmd s.data = some (y, m, d, r5) ∧ expectTee r5 = some r6 ∧
      parseHms r6 = some (hh, mi, ss, r11) ∧ expectChar '.' r11 = some r12 ∧
      leadingDigits r12 = (ds, ['-', '0', '6', '0', '0']) ∧
      1 ≤ ds.length ∧ ds.length ≤ 6 ∧ validDate y m d = true ∧
      dt = ⟨y, m, d, hh, mi, ss, digitsVal ds * 10 ^ (6 - ds.length)⟩ := by
  unfold parseWorklogStarted at h
  cases h1 : parseYmd s.data with
  | none => rw [h1] at h; simp at h
  | some p =>
    obtain ⟨y, m, d, r5⟩ := p
    rw [h1] at h
    simp only [bind, Option.bind] at h
    cases h2 : expectTee r5 with
    | none => rw [h2] at h; simp at h
    | some r6 =>
      rw [h2] at h
      simp only [bind, Option.bind] at h
      cases h3 : parseHms r6 with
      | none => rw [h3] at h; simp at h
      | some p3 =>
        obtain ⟨hh, mi, ss, r11⟩ := p3
        rw [h3] at h
        simp only [bind, Option.bind] at h
        cases h4 : expectChar '.' r11 with
        | none => rw [h4] at h; simp at h
        | some r12 =>
          rw [h4] at h
          simp only [bind, Option.bind] at h
          cases h5 : leadingDigits r12 with
          | mk ds r13 =>
            rw [h5] at h
            simp only [] at h
            by_cases h6 : r13 = ['-', '0', '6', '0', '0'] ∧ 1 ≤ ds.length ∧
                ds.length ≤ 6 ∧ validDate y m d = true
            · rw [if_pos h6] at h
              simp at h
              refine ⟨y, m, d, r5, r6, hh, mi, ss, r11, r12, ds, rfl, h2, h3, h4,
                ?_, h6.2.1, h6.2.2.1, h6.2.2.2, h.symm⟩
              rw [← h6.1]
              exact h5
            · rw [if_neg h6] at h
              simp at h

theorem parseNum2_suffix {lo hi : Nat} {z : Bool} {cs : List Char} {v : Nat}
    {r : List Char} (h : parseNum2 lo hi z cs = some (v, r)) : r <:+ cs := by
  rcases parseNum2_shape h with ⟨c1, c2, hcs, _⟩ | ⟨c1, hcs, _⟩
  · exact ⟨[c1, c2], hcs.symm⟩
  · exact ⟨[c1], hcs.symm⟩

theorem parseYmd_suffix {cs : List Char} {y m d : Nat} {r : List Char}
    (h : parseYmd cs = some (y, m, d, r)) : r <:+ cs := by
  obtain ⟨r1, r2, r3, r4, hY, hC1, hM, hC2, hD⟩ := parseYmd_inv h
  obtain ⟨a, b, c, d2, hcs, -⟩ := parseYear4_shape hY
  calc r <:+ r4 := parseNum2_suffix hD
    _ <:+ r3 := by rw [expectChar_shape hC2]; exact List.suffix_cons '-' r4
    _ <:+ r2 := parseNum2_suffix hM
    _ <:+ r1 := by rw [expectChar_shape hC1]; exact List.suffix_cons '-' r2
    _ <:+ cs := by
      rw [hcs]
      exact (((List.suffix_cons d2 r1).trans (List.suffix_cons c _)).trans
        (List.suffix_cons b _)).trans (List.suffix_cons a _)

theorem parseHms_suffix {cs : List Char} {hh mi ss : Nat} {r : List Char}
    (h : parseHms cs = some (hh, mi, ss, r)) : r <:+ cs := by
  obtain ⟨r1, r2, r3, r4, hH, hC1, hM, hC2, hS⟩ := parseHms_inv h
  calc r <:+ r4 := parseNum2_suffix hS
    _ <:+ r3 := by rw [expectChar_shape hC2]; exact List.suffix_cons ':' r4
    _ <:+ r2 := parseNum2_suffix hM
    _ <:+ r1 := by rw [expectChar_shape hC1]; exact List.suffix_cons ':' r2
    _ <:+ cs := parseNum2_suffix hH

theorem parseNum2_len {lo hi : Nat} {z : Bool} {cs : List Char} {v : Nat}
    {r : List Char} (h : parseNum2 lo hi z cs = some (v, r)) :
    r.length + 1 ≤ cs.length ∧ cs.length ≤ r.length + 2 := by
  rcases parseNum2_shape h with ⟨c1, c2, hcs, -⟩ | ⟨c1, hcs, -⟩ <;> simp [hcs]

theorem parseYmd_len {cs : List Char} {y m d : Nat} {r : List Char}
    (h : parseYmd cs = some (y, m, d, r)) :
    r.length + 8 ≤ cs.length ∧ cs.length ≤ r.length + 10 := by
  obtain ⟨r1, r2, r3, r4, hY, hC1, hM, hC2, hD⟩ := parseYmd_inv h
  obtain ⟨a, b, c, d2, hcs, -⟩ := parseYear4_shape hY
  have e1 : cs.length = r1.length + 4 := by simp [hcs]
  have e2 : r1.length = r2.length + 1 := by rw [expectChar_shape hC1]; simp
  have e3 := parseNum2_len hM
  have e4 : r3.length = r4.length + 1 := by rw [expectChar_shape hC2]; simp
  have e5 := parseNum2_len hD
  omega

theorem parseHms_len {cs : List Char} {hh mi ss : Nat} {r : List Char}
    (h : parseHms cs = some (hh, mi, ss, r)) :
    r.length + 5 ≤ cs.length ∧ cs.length ≤ r.length + 8 := by
  obtain ⟨r1, r2, r3, r4, hH, hC1, hM, hC2, hS⟩ := parseHms_inv h
  have e1 := parseNum2_len hH
  have e2 : r1.length = r2.length + 1 := by rw [expectChar_shape hC1]; simp
  have e3 := parseNum2_len hM
  have e4 : r3.length = r4.length + 1 := by rw [expectChar_shape hC2]; simp
  have e5 := parseNum2_len hS
  omega

theorem skipWhite_append {ws : List Char} (l : List Char)
    (hws : ∀ x ∈ ws, isSpace x = true) : skipWhite (ws ++ l) = skipWhite l := by
  induction ws with
  | nil => rfl
  | cons c rest ih =>
    have hc : isSpace c = true := hws c (by simp)
    have hrest : ∀ x ∈ rest, isSpace x = true := fun x hx => hws x (by simp [hx])
    simp [skipWhite, hc, ih hrest]

theorem skipWhite_nonspace {c : Char} (l : List Char) (hc : isSpace c = false) :
    skipWhite (c :: l) = c :: l := by
  simp [skipWhite, hc]

/-- `\s+` on a run of whitespace followed by a non-whitespace character:
the run (head included) is consumed, everything from the first
non-whitespace character on remains. -/
theorem parseWhite_space_run {c : Char} {ws : List Char} {t0 : Char}
    (tail : List Char) (hc : isSpace c = true)
    (hws : ∀ x ∈ ws, isSpace x = true) (ht0 : isSpace t0 = false) :
    parseWhite (c :: (ws ++ t0 :: tail)) = some (t0 :: tail) := by
  simp only [parseWhite, hc, if_true]
  rw [skipWhite_append (t0 :: tail) hws, skipWhite_nonspace tail ht0]

theorem parseWhite_nonspace {c : Char} (l : List Char) (hc : isSpace c = false) :
    parseWhite (c :: l) = none := by
  simp [parseWhite, hc]

/-- A list that is not all whitespace splits at its first non-whitespace
character. -/
theorem exists_first_nonspace {l : List Char} (h : l.all isSpace = false) :
    ∃ pre c0 post, l = pre ++ c0 :: post ∧ (∀ x ∈ pre, isSpace x = true) ∧
      isSpace c0 = false := by
  induction l with
  | nil => simp at h
  | cons c rest ih =>
    by_cases hc : isSpace c = true
    · have hrest : rest.all isSpace = false := by
        cases hall : rest.all isSpace with
        | false => rfl
        | true =>
          exfalso
          rw [List.all_cons, hc, hall] at h
          simp at h
      obtain ⟨pre, c0, post, hsplit, hpre, hc0⟩ := ih hrest
      refine ⟨c :: pre, c0, post, by simp [hsplit], ?_, hc0⟩
      intro x hx
      rcases List.mem_cons.1 hx with hx | hx
      · rw [hx]; exact hc
      · exact hpre x hx
    · rw [Bool.not_eq_true] at hc
      exact ⟨[], c, rest, by simp, by simp, hc⟩

theorem reMatchYMD_decomp {s : String} (h : reMatchYMD s = true) :
    ∃ a b c d e f g k rest,
      s.data = a :: b :: c :: d :: '-' :: e :: f :: '-' :: g :: k :: rest ∧
      isDigit a = true ∧ isDigit b = true ∧ isDigit c = true ∧ isDigit d = true ∧
      isDigit e = true ∧ isDigit f = true ∧ isDigit g = true ∧ isDigit k = true := by
  unfold reMatchYMD at h
  split at h
  case h_2 => simp at h
  case h_1 a b c d s1 e f s2 g k rest heq =>
    simp at h
    obtain ⟨⟨⟨⟨⟨⟨⟨⟨⟨ha, hb⟩, hc⟩, hd⟩, hs1⟩, he⟩, hf⟩, hs2⟩, hg⟩, hk⟩ := h
    subst hs1; subst hs2
    exact ⟨a, b, c, d, e, f, g, k, rest, heq, ha, hb, hc, hd, he, hf, hg, hk⟩

theorem readYMD_decomp {s : String} {y m d : Nat}
    (h : readYMD s = some (y, m, d)) :
    ∃ a b c d2 e f g k,
      s.data = [a, b, c, d2, '-', e, f, '-', g, k] ∧
      isDigit a = true ∧ isDigit b = true ∧ isDigit c = true ∧ isDigit d2 = true ∧
      isDigit e = true ∧ isDigit f = true ∧ isDigit g = true ∧ isDigit k = true ∧
      y = ((digitVal a * 10 + digitVal b) * 10 + digitVal c) * 10 + digitVal d2 ∧
      m = 10 * digitVal e + digitVal f ∧ d = 10 * digitVal g + digitVal k := by
  unfold readYMD at h
  split at h
  case h_2 => simp at h
  case h_1 a b c d2 s1 e f s2 g k heq =>
    by_cases hcond : (isDigit a && isDigit b && isDigit c && isDigit d2 && (s1 == '-') &&
        isDigit e && isDigit f && (s2 == '-') && isDigit g && isDigit k) = true
    · rw [if_pos hcond] at h
      simp at h
      simp at hcond
      obtain ⟨⟨⟨⟨⟨⟨⟨⟨⟨ha, hb⟩, hc⟩, hd⟩, hs1⟩, he⟩, hf⟩, hs2⟩, hg⟩, hk⟩ := hcond
      subst hs1; subst hs2
      exact ⟨a, b, c, d2, e, f, g, k, heq, ha, hb, hc, hd, he, hf, hg, hk,
        h.1.symm, h.2.1.symm, h.2.2.symm⟩
    · rw [if_neg hcond] at h
      simp at h

theorem readYMD_reMatch {s : String} {y m d : Nat}
    (h : readYMD s = some (y, m, d)) : reMatchYMD s = true := by
  obtain ⟨a, b, c, d2, e, f, g, k, heq, ha, hb, hc, hd, he, hf, hg, hk, -, -, -⟩ :=
    readYMD_decomp h
  unfold reMatchYMD
  rw [heq]
  simp [ha, hb, hc, hd, he, hf, hg, hk]

theorem readYMD10_decomp {s : String} {y m d : Nat} {rest : List Char}
    (h : readYMD10 s = some (y, m, d, rest)) :
    ∃ a b c d2 e f g k,
      s.data = a :: b :: c :: d2 :: '-' :: e :: f :: '-' :: g :: k :: rest ∧
      isDigit a = true ∧ isDigit b = true ∧ isDigit c = true ∧ isDigit d2 = true ∧
      isDigit e = true ∧ isDigit f = true ∧ isDigit g = true ∧ isDigit k = true ∧
      y = ((digitVal a * 10 + digitVal b) * 10 + digitVal c) * 10 + digitVal d2 ∧
      m = 10 * digitVal e + digitVal f ∧ d = 10 * digitVal g + digitVal k := by
  unfold readYMD10 at h
  split at h
  case h_2 => simp at h
  case h_1 a b c d2 s1 e f s2 g k rest2 heq =>
    by_cases hcond : (isDigit a && isDigit b && isDigit c && isDigit d2 && (s1 == '-') &&
        isDigit e && isDigit f && (s2 == '-') && isDigit g && isDigit k) = true
    · rw [if_pos hcond] at h
      simp at h
      simp at hcond
      obtain ⟨⟨⟨⟨⟨⟨⟨⟨⟨ha, hb⟩, hc⟩, hd⟩, hs1⟩, he⟩, hf⟩, hs2⟩, hg⟩, hk⟩ := hcond
      subst hs1; subst hs2
      refine ⟨a, b, c, d2, e, f, g, k, ?_, ha, hb, hc, hd, he, hf, hg, hk,
        h.1.symm, h.2.1.symm, h.2.2.1.symm⟩
      rw [heq, h.2.2.2]
    · rw [if_neg hcond] at h
      simp at h

theorem readYMD_toYMD10 {s : String} {y m d : Nat}
    (h : readYMD s = some (y, m, d)) : readYMD10 s = some (y, m, d, []) := by
  obtain ⟨a, b, c, d2, e, f, g, k, heq, ha, hb, hc, hd, he, hf, hg, hk, hy, hm, hd'⟩ :=
    readYMD_decomp h
  unfold readYMD10
  rw [heq]
  simp [ha, hb, hc, hd, he, hf, hg, hk, hy, hm, hd']

theorem daysInMonth_le_31 (y m : Nat) : daysInMonth y m ≤ 31 := by
  unfold daysInMonth
  split
  · split <;> omega
  · split <;> omega

/-- Evaluation of the `%Y-%m-%d` segment on input whose first ten characters
have the `dddd-dd-dd` shape: the two-digit month and day alternatives fire
exactly when their values are in range, and a failure of either makes the
whole parse fail (the one-digit fallback would have to match the digit that
follows against a non-digit literal). -/
theorem parseYmd_of_shape {a b c d e f g k : Char} {rest : List Char}
    (ha : isDigit a = true) (hb : isDigit b = true) (hc : isDigit c = true)
    (hd : isDigit d = true) (he : isDigit e = true) (hf : isDigit f = true)
    (hg : isDigit g = true) (hk : isDigit k = true) :
    parseYmd (a :: b :: c :: d :: '-' :: e :: f :: '-' :: g :: k :: rest) =
      if 1 ≤ 10 * digitVal e + digitVal f ∧ 10 * digitVal e + digitVal f ≤ 12 then
        if 1 ≤ 10 * digitVal g + digitVal k ∧ 10 * digitVal g + digitVal k ≤ 31 then
          some (((digitVal a * 10 + digitVal b) * 10 + digitVal c) * 10 + digitVal d,
            10 * digitVal e + digitVal f, 10 * digitVal g + digitVal k, rest)
        else none
      else none := by
  have hY : parseYear4 (a :: b :: c :: d :: '-' :: e :: f :: '-' :: g :: k :: rest) =
      some (((digitVal a * 10 + digitVal b) * 10 + digitVal c) * 10 + digitVal d,
        '-' :: e :: f :: '-' :: g :: k :: rest) := by
    simp [parseYear4, ha, hb, hc, hd]
  have hE1 : expectChar '-' ('-' :: e :: f :: '-' :: g :: k :: rest) =
      some (e :: f :: '-' :: g :: k :: rest) := by simp [expectChar]
  have hE2 : expectChar '-' ('-' :: g :: k :: rest) = some (g :: k :: rest) := by
    simp [expectChar]
  by_cases hm : 1 ≤ 10 * digitVal e + digitVal f ∧ 10 * digitVal e + digitVal f ≤ 12
  · have hM : parseNum2 1 12 false (e :: f :: '-' :: g :: k :: rest) =
        some (10 * digitVal e + digitVal f, '-' :: g :: k :: rest) := by
      simp [parseNum2, he, hf, hm]
    by_cases hdy : 1 ≤ 10 * digitVal g + digitVal k ∧ 10 * digitVal g + digitVal k ≤ 31
    · have hD : parseNum2 1 31 false (g :: k :: rest) =
          some (10 * digitVal g + digitVal k, rest) := by simp [parseNum2, hg, hk, hdy]
      simp [parseYmd, hY, hE1, hM, hE2, hD, hm, hdy]
    · have hD : parseNum2 1 31 false (g :: k :: rest) = none := by
        simp [parseNum2, hg, hk, hdy]
      simp [parseYmd, hY, hE1, hM, hE2, hD, hm, hdy]
  · have hM : parseNum2 1 12 false (e :: f :: '-' :: g :: k :: rest) = none := by
      simp [parseNum2, he, hf, hm]
    simp [parseYmd, hY, hE1, hM, hm]

theorem validDate_ranges {y m d : Nat} (h : validDate y m d = true) :
    1 ≤ m ∧ m ≤ 12 ∧ 1 ≤ d ∧ d ≤ 31 := by
  simp only [validDate, decide_eq_true_eq] at h
  have := daysInMonth_le_31 y m
  omega

/-- Evaluation of the argument-`strptime` on input whose first ten
characters have the `dddd-dd-dd` shape, followed by arbitrary characters
`rest`, the appended space and a fixed time-of-day: parsing succeeds
exactly when `rest` is all whitespace (the format's space is compiled to
`\s+`, which absorbs `rest` together with the appended space) and the
ten-character prefix denotes a real calendar date. -/
theorem strptimeYmdHms_shape {a b c d2 e f g k : Char} {rest : List Char}
    {t0 : Char} {ttail : List Char} {hh mi ss : Nat}
    (ha : isDigit a = true) (hb : isDigit b = true) (hc : isDigit c = true)
    (hd : isDigit d2 = true) (he : isDigit e = true) (hf : isDigit f = true)
    (hg : isDigit g = true) (hk : isDigit k = true)
    (ht0 : isSpace t0 = false)
    (hhms : parseHms (t0 :: ttail) = some (hh, mi, ss, []))
    (htlen : ttail.length = 7) :
    strptimeYmdHms (a :: b :: c :: d2 :: '-' :: e :: f :: '-' :: g :: k ::
        (rest ++ ' ' :: t0 :: ttail)) =
      if (rest.all isSpace &&
          validDate
            (((digitVal a * 10 + digitVal b) * 10 + digitVal c) * 10 + digitVal d2)
            (10 * digitVal e + digitVal f) (10 * digitVal g + digitVal k)) = true then
        some (((digitVal a * 10 + digitVal b) * 10 + digitVal c) * 10 + digitVal d2,
          10 * digitVal e + digitVal f, 10 * digitVal g + digitVal k, hh, mi, ss)
      else none := by
  have hYall := @parseYmd_of_shape a b c d2 e f g k (rest ++ ' ' :: t0 :: ttail)
    ha hb hc hd he hf hg hk
  by_cases hm : 1 ≤ 10 * digitVal e + digitVal f ∧ 10 * digitVal e + digitVal f ≤ 12
  · by_cases hdy : 1 ≤ 10 * digitVal g + digitVal k ∧ 10 * digitVal g + digitVal k ≤ 31
    · rw [if_pos hm, if_pos hdy] at hYall
      by_cases hall : rest.all isSpace = true
      · have hws : ∀ x ∈ rest, isSpace x = true := by
          rw [List.all_eq_true] at hall
          intro x hx
          simpa using hall x hx
        cases rest with
        | nil =>
          have hW : parseWhite (' ' :: t0 :: ttail) = some (t0 :: ttail) := by
            simpa using @parseWhite_space_run ' ' [] t0 ttail (by decide)
              (by simp) ht0
          simp only [List.nil_append] at hYall
          rw [hall]
          by_cases hv : validDate
              (((digitVal a * 10 + digitVal b) * 10 + digitVal c) * 10 + digitVal d2)
              (10 * digitVal e + digitVal f) (10 * digitVal g + digitVal k) = true
          · simp [strptimeYmdHms, hYall, hW, hhms, hv]
          · simp [strptimeYmdHms, hYall, hW, hhms, hv]
        | cons r0 rs =>
          have hr0 : isSpace r0 = true := hws r0 (by simp)
          have hrs : ∀ x ∈ rs ++ [' '], isSpace x = true := by
            intro x hx
            rcases List.mem_append.1 hx with hx | hx
            · exact hws x (by simp [hx])
            · simp at hx
              rw [hx]
              decide
          have hW := @parseWhite_space_run r0 (rs ++ [' ']) t0 ttail hr0 hrs ht0
          simp only [List.cons_append, List.nil_append, List.append_assoc]
            at hYall hW
          rw [hall]
          by_cases hv : validDate
              (((digitVal a * 10 + digitVal b) * 10 + digitVal c) * 10 + digitVal d2)
              (10 * digitVal e + digitVal f) (10 * digitVal g + digitVal k) = true
          · simp [strptimeYmdHms, hYall, hW, hhms, hv]
          · simp [strptimeYmdHms, hYall, hW, hhms, hv]
      · rw [Bool.not_eq_true] at hall
        obtain ⟨pre, c0, post, hsplit, hpre, hc0⟩ := exists_first_nonspace hall
        subst hsplit
        cases pre with
        | nil =>
          have hW : parseWhite (c0 :: (post ++ ' ' :: t0 :: ttail)) = none :=
            parseWhite_nonspace (post ++ ' ' :: t0 :: ttail) hc0
          simp only [List.cons_append, List.nil_append, List.append_assoc] at hYall
          rw [hall]
          simp [strptimeYmdHms, hYall, hW]
        | cons p0 ps =>
          have hp0 : isSpace p0 = true := hpre p0 (by simp)
          have hps : ∀ x ∈ ps, isSpace x = true := fun x hx => hpre x (by simp [hx])
          have hW := @parseWhite_space_run p0 ps c0
            (post ++ ' ' :: t0 :: ttail) hp0 hps hc0
          simp only [List.cons_append, List.nil_append, List.append_assoc]
            at hYall hW
          rw [hall]
          cases hH : parseHms (c0 :: (post ++ ' ' :: t0 :: ttail)) with
          | none => simp [strptimeYmdHms, hYall, hW, hH]
          | some p4 =>
            obtain ⟨hh2, mi2, ss2, r11⟩ := p4
            have hr11 : ¬(r11 = [] ∧ validDate
                (((digitVal a * 10 + digitVal b) * 10 + digitVal c) * 10 + digitVal d2)
                (10 * digitVal e + digitVal f) (10 * digitVal g + digitVal k) = true) := by
              rintro ⟨hnil, -⟩
              subst hnil
              have hlen := (parseHms_len hH).2
              simp only [List.length_cons, List.length_append, List.length_nil,
                htlen] at hlen
              omega
            simp [strptimeYmdHms, hYall, hW, hH, hr11]
    · rw [if_pos hm, if_neg hdy] at hYall
      have hv : validDate
          (((digitVal a * 10 + digitVal b) * 10 + digitVal c) * 10 + digitVal d2)
          (10 * digitVal e + digitVal f) (10 * digitVal g + digitVal k) = false := by
        rcases Bool.eq_false_or_eq_true (validDate
            (((digitVal a * 10 + digitVal b) * 10 + digitVal c) * 10 + digitVal d2)
            (10 * digitVal e + digitVal f) (10 * digitVal g + digitVal k)) with htr | hfa
        · exact absurd (validDate_ranges htr) (by tauto)
        · exact hfa
      simp [strptimeYmdHms, hYall, hv]
  · rw [if_neg hm] at hYall
    have hv : validDate
        (((digitVal a * 10 + digitVal b) * 10 + digitVal c) * 10 + digitVal d2)
        (10 * digitVal e + digitVal f) (10 * digitVal g + digitVal k) = false := by
      rcases Bool.eq_false_or_eq_true (validDate
          (((digitVal a * 10 + digitVal b) * 10 + digitVal c) * 10 + digitVal d2)
          (10 * digitVal e + digitVal f) (10 * digitVal g + digitVal k)) with htr | hfa
      · exact absurd (validDate_ranges htr) (by tauto)
      · exact hfa
    simp [strptimeYmdHms, hYall, hv]

/-- The `strptime` call of lines 48/53 on a date argument whose first ten
characters have the `dddd-dd-dd` prefix shape, with a nine-character
`" HH:MM:SS"` suffix appended: parsing succeeds exactly when everything
after the ten-character prefix is whitespace and the prefix denotes a real
calendar date. -/
theorem validateDateArg_headShape {s : String} {y m d : Nat} {rest : List Char}
    (h : readYMD10 s = some (y, m, d, rest)) {t : String} {t0 : Char}
    {ttail : List Char} {hh mi ss : Nat} (ht : t.data = ' ' :: t0 :: ttail)
    (ht0 : isSpace t0 = false)
    (hhms : parseHms (t0 :: ttail) = some (hh, mi, ss, []))
    (htlen : ttail.length = 7) :
    validateDateArg s t =
      if (rest.all isSpace && validDate y m d) = true then
        some ⟨y, m, d, hh, mi, ss, 0⟩
      else none := by
  obtain ⟨a, b, c, d2, e, f, g, k, heq, ha, hb, hc, hd, he, hf, hg, hk, hy, hm, hd'⟩ :=
    readYMD10_decomp h
  unfold validateDateArg
  rw [String.data_append, heq, ht]
  have hlist : (a :: b :: c :: d2 :: '-' :: e :: f :: '-' :: g :: k :: rest) ++
      (' ' :: t0 :: ttail) =
      a :: b :: c :: d2 :: '-' :: e :: f :: '-' :: g :: k ::
        (rest ++ ' ' :: t0 :: ttail) := by simp
  rw [hlist, strptimeYmdHms_shape ha hb hc hd he hf hg hk ht0 hhms htlen,
    ← hy, ← hm, ← hd']
  by_cases hcond : (rest.all isSpace && validDate y m d) = true
  · simp [hcond]
  · simp [hcond]

/-- `strptime` of the start-date argument with `" 00:00:01"` appended, on an
exactly-shaped date string. -/
theorem validateDateArg_start {s : String} {y m d : Nat}
    (h : readYMD s = some (y, m, d)) :
    validateDateArg s " 00:00:01" =
      (if validDate y m d = true then some ⟨y, m, d, 0, 0, 1, 0⟩ else none) := by
  have ht : (" 00:00:01" : String).data =
      ' ' :: '0' :: ['0', ':', '0', '0', ':', '0', '1'] := rfl
  have hhms : parseHms ('0' :: ['0', ':', '0', '0', ':', '0', '1']) =
      some (0, 0, 1, []) := by decide
  rw [validateDateArg_headShape (readYMD_toYMD10 h) ht (by decide) hhms (by decide)]
  by_cases hv : validDate y m d = true
  · simp [hv]
  · simp [hv]

/-- `strptime` of the end-date argument with `" 23:59:59"` appended, on an
exactly-shaped date string. -/
theorem validateDateArg_end {s : String} {y m d : Nat}
    (h : readYMD s = some (y, m, d)) :
    validateDateArg s " 23:59:59" =
      (if validDate y m d = true then some ⟨y, m, d, 23, 59, 59, 0⟩ else none) := by
  have ht : (" 23:59:59" : String).data =
      ' ' :: '2' :: ['3', ':', '5', '9', ':', '5', '9'] := rfl
  have hhms : parseHms ('2' :: ['3', ':', '5', '9', ':', '5', '9']) =
      some (23, 59, 59, []) := by decide
  rw [validateDateArg_headShape (readYMD_toYMD10 h) ht (by decide) hhms (by decide)]
  by_cases hv : validDate y m d = true
  · simp [hv]
  · simp [hv]

/-! ### Aggregation-loop lemmas -/

/-- The rounded-hours contribution of the records of `l` that are in-window
and belong to author `a` (each record's hours rounded to two decimals before
summation, following line 115/132). -/
def contribSum (start_datetime end_datetime : PyDateTime) (a : String)
    (l : List WorkItem) : ℚ :=
  ((l.filter (fun w => countedb start_datetime end_datetime w &&
      (w.authorDisplayName == a))).map
    (fun w => round2 ((w.timeSpentSeconds : ℚ) / 3600))).sum

theorem contribSum_nil (sdt edt : PyDateTime) (a : String) :
    contribSum sdt edt a [] = 0 := rfl

theorem contribSum_cons (sdt edt : PyDateTime) (a : String) (w : WorkItem)
    (l : List WorkItem) :
    contribSum sdt edt a (w :: l) =
      (if countedb sdt edt w = true ∧ w.authorDisplayName = a then
        round2 ((w.timeSpentSeconds : ℚ) / 3600) else 0) + contribSum sdt edt a l := by
  unfold contribSum
  by_cases hc : countedb sdt edt w = true ∧ w.authorDisplayName = a
  · rw [if_pos hc]
    rw [List.filter_cons_of_pos (by simp [hc.1, hc.2])]
    simp
  · rw [if_neg hc]
    rw [List.filter_cons_of_neg (by simpa using fun h1 h2 => hc ⟨h1, h2⟩)]
    simp

theorem contribSum_append (sdt edt : PyDateTime) (a : String)
    (l1 l2 : List WorkItem) :
    contribSum sdt edt a (l1 ++ l2) = contribSum sdt edt a l1 + contribSum sdt edt a l2 := by
  unfold contribSum
  rw [List.filter_append, List.map_append, List.sum_append]

theorem contribSum_perm {l1 l2 : List WorkItem} (hp : l1.Perm l2)
    (sdt edt : PyDateTime) (a : String) :
    contribSum sdt edt a l1 = contribSum sdt edt a l2 := by
  unfold contribSum
  exact ((hp.filter _).map _).sum_eq

/-- Splitting the loop over a concatenation of record lists. -/
theorem processWorklog_append (detailed : Bool) (sdt edt : PyDateTime)
    (key summary : String) (st : LoopState) (l1 l2 : List WorkItem) :
    processWorklog detailed sdt edt key summary st (l1 ++ l2) =
      match processWorklog detailed sdt edt key summary st l1 with
      | .error e => .error e
      | .ok st2 => processWorklog detailed sdt edt key summary st2 l2 := by
  induction l1 generalizing st with
  | nil => simp [processWorklog]
  | cons w rest ih =>
    simp only [List.cons_append, processWorklog]
    cases processWorkItem detailed sdt edt key summary st w with
    | error e => rfl
    | ok st2 => exact ih st2

/-- The per-record loop body when the `started` string does not parse:
the unhandled `strptime` exception, before the record is classified
against the window. -/
theorem processWorkItem_parse_none {detailed : Bool} {sdt edt : PyDateTime}
    {key summary : String} {st : LoopState} {w : WorkItem}
    (hp : parseWorklogStarted w.started = none) :
    processWorkItem detailed sdt edt key summary st w =
      .error (.strptimeError w.started) := by
  unfold processWorkItem
  rw [hp]

/-- The per-record loop body on an out-of-window record: no output, no
accumulation, no state change. -/
theorem processWorkItem_not_inWindow {detailed : Bool} {sdt edt : PyDateTime}
    {key summary : String} {st : LoopState} {w : WorkItem} {dt : PyDateTime}
    (hp : parseWorklogStarted w.started = some dt)
    (hin : inWindow sdt edt dt = false) :
    processWorkItem detailed sdt edt key summary st w = .ok st := by
  unfold processWorkItem
  rw [hp]
  simp [hin]

/-- The per-record loop body on an in-window record, as one equation. -/
theorem processWorkItem_inWindow_eq {detailed : Bool} {sdt edt : PyDateTime}
    {key summary : String} {st : LoopState} {w : WorkItem} {dt : PyDateTime}
    (hp : parseWorklogStarted w.started = some dt)
    (hin : inWindow sdt edt dt = true) :
    processWorkItem detailed sdt edt key summary st w =
      (match addToKey st.developer_hours w.authorDisplayName
          (round2 ((w.timeSpentSeconds : ℚ) / 3600)) with
       | none => .error (.keyError w.authorDisplayName)
       | some h2 => .ok ⟨h2,
           ((if st.display_issue_header && detailed then
               st.output ++ [.issueHeader key summary] else st.output) ++
             (if detailed then
               [.workDetail w.authorDisplayName
                 (round2 ((w.timeSpentSeconds : ℚ) / 3600)) { dt with micro := 0 }]
              else [])),
           (if st.display_issue_header && detailed then false
            else st.display_issue_header)⟩) := by
  unfold processWorkItem
  rw [hp]
  simp only [hin, if_true]
  cases addToKey st.developer_hours w.authorDisplayName
      (round2 ((w.timeSpentSeconds : ℚ) / 3600)) with
  | none => simp
  | some h2 =>
    by_cases hd : detailed = true
    · simp [hd]
    · simp [hd]

theorem processWorklog_keys {detailed : Bool} {sdt edt : PyDateTime}
    {key summary : String} {st : LoopState} {l : List WorkItem} {st' : LoopState}
    (h : processWorklog detailed sdt edt key summary st l = .ok st') :
    st'.developer_hours.map Prod.fst = st.developer_hours.map Prod.fst := by
  induction l generalizing st with
  | nil =>
    simp [processWorklog] at h
    rw [h]
  | cons w rest ih =>
    simp only [processWorklog] at h
    cases hw : processWorkItem detailed sdt edt key summary st w with
    | error e => rw [hw] at h; simp at h
    | ok st2 =>
      rw [hw] at h
      have hkeys2 : st2.developer_hours.map Prod.fst =
          st.developer_hours.map Prod.fst := by
        cases hp : parseWorklogStarted w.started with
        | none =>
          rw [processWorkItem_parse_none hp] at hw
          simp at hw
        | some dt =>
          by_cases hin : inWindow sdt edt dt = true
          · rw [processWorkItem_inWindow_eq hp hin] at hw
            cases hadd : addToKey st.developer_hours w.authorDisplayName
                (round2 ((w.timeSpentSeconds : ℚ) / 3600)) with
            | none => rw [hadd] at hw; simp at hw
            | some h2 =>
              rw [hadd] at hw
              simp at hw
              rw [← hw]
              exact addToKey_keys hadd
          · rw [processWorkItem_not_inWindow hp
              (by simpa using hin)] at hw
            simp at hw
            rw [← hw]
      exact (ih h).trans hkeys2

/-- Closed form for the table after one work-log loop: every author's entry
grows by exactly the sum of the rounded hours of their in-window records
(first-occurrence lookup, matching Python `dict` access). -/
theorem processWorklog_lookup {detailed : Bool} {sdt edt : PyDateTime}
    {key summary : String} {st : LoopState} {l : List WorkItem} {st' : LoopState}
    (h : processWorklog detailed sdt edt key summary st l = .ok st') (a : String) :
    lookup2 st'.developer_hours a =
      (lookup2 st.developer_hours a).map (· + contribSum sdt edt a l) := by
  induction l generalizing st with
  | nil =>
    simp [processWorklog] at h
    rw [h, contribSum_nil]
    cases lookup2 st.developer_hours a <;> simp
  | cons w rest ih =>
    simp only [processWorklog] at h
    cases hw : processWorkItem detailed sdt edt key summary st w with
    | error e => rw [hw] at h; simp at h
    | ok st2 =>
      rw [hw] at h
      have hrest := ih h
      rw [contribSum_cons]
      cases hp : parseWorklogStarted w.started with
      | none =>
        rw [processWorkItem_parse_none hp] at hw
        simp at hw
      | some dt =>
        by_cases hin : inWindow sdt edt dt = true
        · rw [processWorkItem_inWindow_eq hp hin] at hw
          cases hadd : addToKey st.developer_hours w.authorDisplayName
              (round2 ((w.timeSpentSeconds : ℚ) / 3600)) with
          | none => rw [hadd] at hw; simp at hw
          | some h2 =>
            rw [hadd] at hw
            simp at hw
            have hcb : countedb sdt edt w = true := by
              unfold countedb
              rw [hp]
              exact hin
            have hl2 := addToKey_lookup hadd a
            rw [← hw] at hrest
            simp at hrest
            by_cases hba : a = w.authorDisplayName
            · subst hba
              rw [if_pos rfl] at hl2
              rw [hrest, hl2, if_pos ⟨hcb, rfl⟩]
              cases hLv : lookup2 st.developer_hours w.authorDisplayName with
              | none => simp
              | some v =>
                simp
                ring
            · rw [if_neg hba] at hl2
              rw [hrest, hl2, if_neg (by
                intro hcon
                exact hba hcon.2.symm)]
              cases hLv : lookup2 st.developer_hours a <;> simp
        · have hcb : countedb sdt edt w = false := by
            unfold countedb
            rw [hp]
            simpa using hin
          rw [processWorkItem_not_inWindow hp (by simpa using hin)] at hw
          simp at hw
          rw [← hw] at hrest
          rw [hrest, if_neg (by simp [hcb])]
          simp

/-- Success conditions of one work-log loop: every record's `started` string
parses, and every in-window record's author is a key of the table. -/
def WorklogOk (sdt edt : PyDateTime) (keys : List String) (l : List WorkItem) : Prop :=
  ∀ w ∈ l, (parseWorklogStarted w.started).isSome = true ∧
    (countedb sdt edt w = true → w.authorDisplayName ∈ keys)

theorem processWorklog_ok_of {detailed : Bool} {sdt edt : PyDateTime}
    {key summary : String} {st : LoopState} {l : List WorkItem}
    (h : WorklogOk sdt edt (st.developer_hours.map Prod.fst) l) :
    ∃ st', processWorklog detailed sdt edt key summary st l = .ok st' := by
  induction l generalizing st with
  | nil => exact ⟨st, rfl⟩
  | cons w rest ih =>
    obtain ⟨hw1, hw2⟩ := h w (by simp)
    cases hp : parseWorklogStarted w.started with
    | none => rw [hp] at hw1; simp at hw1
    | some dt =>
      by_cases hin : inWindow sdt edt dt = true
      · have hcb : countedb sdt edt w = true := by
          unfold countedb
          rw [hp]
          exact hin
        have hmem := hw2 hcb
        have hsome : (addToKey st.developer_hours w.authorDisplayName
            (round2 ((w.timeSpentSeconds : ℚ) / 3600))).isSome = true :=
          addToKey_isSome_iff.2 hmem
        cases hadd : addToKey st.developer_hours w.authorDisplayName
            (round2 ((w.timeSpentSeconds : ℚ) / 3600)) with
        | none => rw [hadd] at hsome; simp at hsome
        | some h2 =>
          set st2 : LoopState := ⟨h2,
            ((if st.display_issue_header && detailed then
                st.output ++ [.issueHeader key summary] else st.output) ++
              (if detailed then
                [.workDetail w.authorDisplayName
                  (round2 ((w.timeSpentSeconds : ℚ) / 3600)) { dt with micro := 0 }]
               else [])),
            (if st.display_issue_header && detailed then false
             else st.display_issue_header)⟩ with hst2
          have hstep : processWorkItem detailed sdt edt key summary st w = .ok st2 := by
            rw [processWorkItem_inWindow_eq hp hin, hadd]
          have hkeys : st2.developer_hours.map Prod.fst =
              st.developer_hours.map Prod.fst := by
            rw [hst2]
            exact addToKey_keys hadd
          obtain ⟨st3, hst3⟩ := @ih st2 (by
            rw [hkeys]
            exact fun x hx => h x (by simp [hx]))
          refine ⟨st3, ?_⟩
          simp only [processWorklog, hstep]
          exact hst3
      · have hstep := @processWorkItem_not_inWindow detailed sdt edt key summary
          st w dt hp (by simpa using hin)
        obtain ⟨st3, hst3⟩ := @ih st (fun x hx => h x (by simp [hx]))
        refine ⟨st3, ?_⟩
        simp only [processWorklog, hstep]
        exact hst3

theorem worklogOk_of_processWorklog {detailed : Bool} {sdt edt : PyDateTime}
    {key summary : String} {st : LoopState} {l : List WorkItem} {st' : LoopState}
    (h : processWorklog detailed sdt edt key summary st l = .ok st') :
    WorklogOk sdt edt (st.developer_hours.map Prod.fst) l := by
  induction l generalizing st with
  | nil => intro w hw; simp at hw
  | cons w rest ih =>
    simp only [processWorklog] at h
    cases hw : processWorkItem detailed sdt edt key summary st w with
    | error e => rw [hw] at h; simp at h
    | ok st2 =>
      rw [hw] at h
      intro x hx
      rcases List.mem_cons.1 hx with hx1 | hx2
      · subst hx1
        cases hp : parseWorklogStarted x.started with
        | none =>
          rw [processWorkItem_parse_none hp] at hw
          simp at hw
        | some dt =>
          refine ⟨by simp [hp], fun hcb => ?_⟩
          have hin : inWindow sdt edt dt = true := by
            unfold countedb at hcb
            rw [hp] at hcb
            exact hcb
          rw [processWorkItem_inWindow_eq hp hin] at hw
          cases hadd : addToKey st.developer_hours x.authorDisplayName
              (round2 ((x.timeSpentSeconds : ℚ) / 3600)) with
          | none => rw [hadd] at hw; simp at hw
          | some h2 =>
            exact addToKey_isSome_iff.1 (by rw [hadd]; rfl)
      · have hkeys2 : st2.developer_hours.map Prod.fst =
            st.developer_hours.map Prod.fst := by
          cases hp : parseWorklogStarted w.started with
          | none =>
            rw [processWorkItem_parse_none hp] at hw
            simp at hw
          | some dt =>
            by_cases hin : inWindow sdt edt dt = true
            · rw [processWorkItem_inWindow_eq hp hin] at hw
              cases hadd : addToKey st.developer_hours w.authorDisplayName
                  (round2 ((w.timeSpentSeconds : ℚ) / 3600)) with
              | none => rw [hadd] at hw; simp at hw
              | some h2 =>
                rw [hadd] at hw
                simp at hw
                rw [← hw]
                exact addToKey_keys hadd
            · rw [processWorkItem_not_inWindow hp (by simpa using hin)] at hw
              simp at hw
              rw [← hw]
        have := ih h x hx2
        rw [hkeys2] at this
        exact this

/-- If the records before position `i` are unproblematic, the loop reaches
record `i` with the same table keys, and the run's outcome from there is the
outcome of processing record `i` and continuing. -/
theorem processWorklog_reach {detailed : Bool} {sdt edt : PyDateTime}
    {key summary : String} {st : LoopState} {pre : List WorkItem}
    (hpre : WorklogOk sdt edt (st.developer_hours.map Prod.fst) pre)
    (w : WorkItem) (rest : List WorkItem) :
    ∃ stm, processWorklog detailed sdt edt key summary st (pre ++ w :: rest) =
        (match processWorkItem detailed sdt edt key summary stm w with
         | .error e => .error e
         | .ok st2 => processWorklog detailed sdt edt key summary st2 rest) ∧
      stm.developer_hours.map Prod.fst = st.developer_hours.map Prod.fst := by
  obtain ⟨stm, hstm⟩ := @processWorklog_ok_of detailed sdt edt key summary st pre
    hpre
  refine ⟨stm, ?_, processWorklog_keys hstm⟩
  rw [processWorklog_append, hstm]
  simp only [processWorklog]

/-- Is this printed line an issue/subtask header? -/
def isHeaderLine : OutLine → Bool
  | .issueHeader _ _ => true
  | .workDetail _ _ _ => false

/-- Number of header lines in a stretch of output. -/
def countHeaders (l : List OutLine) : Nat := l.countP isHeaderLine

theorem countHeaders_append (l1 l2 : List OutLine) :
    countHeaders (l1 ++ l2) = countHeaders l1 + countHeaders l2 :=
  List.countP_append _ _ _

/-- Output-shape invariant of one detailed-mode work-log loop, for an
arbitrary initial header flag: the loop appends nothing when no record is
in-window, and exactly one header (at the first in-window record) when the
flag was still set. -/
theorem processWorklog_out {sdt edt : PyDateTime} {key summary : String} :
    ∀ {l : List WorkItem} {h0 : List (String × ℚ)} {out0 : List OutLine}
      {flag : Bool} {st' : LoopState},
    processWorklog true sdt edt key summary ⟨h0, out0, flag⟩ l = .ok st' →
    ∃ delta, st'.output = out0 ++ delta ∧
      (l.all (fun w => !(countedb sdt edt w)) = true → delta = []) ∧
      countHeaders delta =
        (if flag && l.any (fun w => countedb sdt edt w) then 1 else 0) := by
  intro l
  induction l with
  | nil =>
    intro h0 out0 flag st' h
    simp [processWorklog] at h
    exact ⟨[], by rw [← h]; simp, by intro; rfl, by simp [countHeaders]⟩
  | cons w rest ih =>
    intro h0 out0 flag st' h
    simp only [processWorklog] at h
    cases hp : parseWorklogStarted w.started with
    | none =>
      rw [processWorkItem_parse_none hp] at h
      simp at h
    | some dt =>
      by_cases hin : inWindow sdt edt dt = true
      · have hcb : countedb sdt edt w = true := by
          unfold countedb
          rw [hp]
          exact hin
        rw [processWorkItem_inWindow_eq hp hin] at h
        cases hadd : addToKey h0 w.authorDisplayName
            (round2 ((w.timeSpentSeconds : ℚ) / 3600)) with
        | none => rw [hadd] at h; simp at h
        | some h2 =>
          rw [hadd] at h
          simp only [] at h
          have hstep : processWorklog true sdt edt key summary
              ⟨h2, ((if flag && true then out0 ++ [.issueHeader key summary] else out0) ++
                [.workDetail w.authorDisplayName
                  (round2 ((w.timeSpentSeconds : ℚ) / 3600)) { dt with micro := 0 }]),
               (if flag && true then false else flag)⟩ rest = .ok st' := h
          have hflag : (if flag && true then false else flag) = false := by
            cases flag <;> simp
          rw [hflag] at hstep
          obtain ⟨delta2, hout2, hempty2, hcount2⟩ := ih hstep
          refine ⟨(if flag then [.issueHeader key summary] else []) ++
            [.workDetail w.authorDisplayName
              (round2 ((w.timeSpentSeconds : ℚ) / 3600)) { dt with micro := 0 }] ++
            delta2, ?_, ?_, ?_⟩
          · rw [hout2]
            cases flag <;> simp
          · intro hall
            simp [hcb] at hall
          · have hdet : countHeaders [OutLine.workDetail w.authorDisplayName
                (round2 ((w.timeSpentSeconds : ℚ) / 3600)) { dt with micro := 0 }] = 0 := rfl
            have hhdr : countHeaders [OutLine.issueHeader key summary] = 1 := rfl
            simp at hcount2
            rw [countHeaders_append, countHeaders_append, hdet, hcount2]
            cases flag with
            | false => simp [countHeaders]
            | true => simp [List.any_cons, hcb, hhdr]
      · have hcb : countedb sdt edt w = false := by
          unfold countedb
          rw [hp]
          simpa using hin
        rw [processWorkItem_not_inWindow hp (by simpa using hin)] at h
        simp only [] at h
        obtain ⟨delta2, hout2, hempty2, hcount2⟩ := ih h
        refine ⟨delta2, hout2, ?_, ?_⟩
        · intro hall
          simp [hcb] at hall
          exact hempty2 (by simpa using hall)
        · rw [hcount2]
          simp [List.any_cons, hcb]

/-- Every table value stays a whole number of hundredths across one
work-log loop (each added amount is a `round(…, 2)` result). -/
theorem processWorklog_centi {detailed : Bool} {sdt edt : PyDateTime}
    {key summary : String} {st : LoopState} {l : List WorkItem} {st' : LoopState}
    (h : processWorklog detailed sdt edt key summary st l = .ok st')
    (hc : ∀ p ∈ st.developer_hours, IsCenti p.2) :
    ∀ p ∈ st'.developer_hours, IsCenti p.2 := by
  induction l generalizing st with
  | nil =>
    simp [processWorklog] at h
    rw [← h]
    exact hc
  | cons w rest ih =>
    simp only [processWorklog] at h
    cases hw : processWorkItem detailed sdt edt key summary st w with
    | error e => rw [hw] at h; simp at h
    | ok st2 =>
      rw [hw] at h
      have hc2 : ∀ p ∈ st2.developer_hours, IsCenti p.2 := by
        cases hp : parseWorklogStarted w.started with
        | none =>
          rw [processWorkItem_parse_none hp] at hw
          simp at hw
        | some dt =>
          by_cases hin : inWindow sdt edt dt = true
          · rw [processWorkItem_inWindow_eq hp hin] at hw
            cases hadd : addToKey st.developer_hours w.authorDisplayName
                (round2 ((w.timeSpentSeconds : ℚ) / 3600)) with
            | none => rw [hadd] at hw; simp at hw
            | some h2 =>
              rw [hadd] at hw
              simp at hw
              rw [← hw]
              exact addToKey_allCenti hadd hc (isCenti_round2 _)
          · rw [processWorkItem_not_inWindow hp (by simpa using hin)] at hw
            simp at hw
            rw [← hw]
            exact hc
      exact ih h hc2

theorem option_map_add_add (o : Option ℚ) (x y : ℚ) :
    (o.map (· + x)).map (· + y) = o.map (· + (x + y)) := by
  cases o with
  | none => rfl
  | some v =>
    simp
    ring

/-- Closed form for the table across the subtask loop of one issue. -/
theorem processSubtasks_lookup {detailed : Bool} {sdt edt : PyDateTime} :
    ∀ {sts : List Subtask} {acc acc2 : List (String × ℚ) × List OutLine},
    processSubtasks detailed sdt edt acc sts = .ok acc2 → ∀ a,
    lookup2 acc2.1 a = (lookup2 acc.1 a).map
      (· + contribSum sdt edt a ((sts.map Subtask.worklog).flatten)) := by
  intro sts
  induction sts with
  | nil =>
    intro acc acc2 h a
    simp [processSubtasks] at h
    rw [← h]
    simp [contribSum_nil]
  | cons s rest ih =>
    intro acc acc2 h a
    simp only [processSubtasks] at h
    cases hw : processWorklog detailed sdt edt s.key s.summary ⟨acc.1, acc.2, true⟩
        s.worklog with
    | error e => rw [hw] at h; simp at h
    | ok ls =>
      rw [hw] at h
      have h1 := processWorklog_lookup hw a
      have h2 := ih h a
      simp only [List.map_cons, List.flatten_cons]
      rw [h2]
      simp only [] at h1
      rw [h1, option_map_add_add, contribSum_append]

/-- Closed form for the table across the whole issue loop. -/
theorem processIssues_lookup {detailed : Bool} {sdt edt : PyDateTime} :
    ∀ {issues : List Issue} {acc acc2 : List (String × ℚ) × List OutLine},
    processIssues detailed sdt edt acc issues = .ok acc2 → ∀ a,
    lookup2 acc2.1 a = (lookup2 acc.1 a).map
      (· + contribSum sdt edt a (allWorkItems issues)) := by
  intro issues
  induction issues with
  | nil =>
    intro acc acc2 h a
    simp [processIssues] at h
    rw [← h]
    simp [allWorkItems, contribSum_nil]
  | cons i rest ih =>
    intro acc acc2 h a
    simp only [processIssues] at h
    cases hw : processWorklog detailed sdt edt i.key i.summary ⟨acc.1, acc.2, true⟩
        i.worklog with
    | error e => rw [hw] at h; simp at h
    | ok ls =>
      rw [hw] at h
      have hcont : (match processSubtasks detailed sdt edt
            (ls.developer_hours, ls.output) i.subtasks with
          | Except.error e =>
            (Except.error e : Except RunError (List (String × ℚ) × List OutLine))
          | Except.ok acc1 => processIssues detailed sdt edt acc1 rest) =
            Except.ok acc2 := h
      cases hs : processSubtasks detailed sdt edt (ls.developer_hours, ls.output)
          i.subtasks with
      | error e => rw [hs] at hcont; simp at hcont
      | ok acc1 =>
        rw [hs] at hcont
        have h1 := processWorklog_lookup hw a
        have h2 := processSubtasks_lookup hs a
        have h3 := ih hcont a
        have hall : allWorkItems (i :: rest) =
            (i.worklog ++ (i.subtasks.map Subtask.worklog).flatten) ++
              allWorkItems rest := by
          simp [allWorkItems]
        rw [hall, h3, h2]
        simp only [] at h1
        rw [h1, option_map_add_add, option_map_add_add, contribSum_append,
          contribSum_append]
        cases lookup2 acc.1 a with
        | none => rfl
        | some v =>
          simp
          ring

theorem processSubtasks_centi {detailed : Bool} {sdt edt : PyDateTime} :
    ∀ {sts : List Subtask} {acc acc2 : List (String × ℚ) × List OutLine},
    processSubtasks detailed sdt edt acc sts = .ok acc2 →
    (∀ p ∈ acc.1, IsCenti p.2) → ∀ p ∈ acc2.1, IsCenti p.2 := by
  intro sts
  induction sts with
  | nil =>
    intro acc acc2 h hc
    simp [processSubtasks] at h
    rw [← h]
    exact hc
  | cons s rest ih =>
    intro acc acc2 h hc
    simp only [processSubtasks] at h
    cases hw : processWorklog detailed sdt edt s.key s.summary ⟨acc.1, acc.2, true⟩
        s.worklog with
    | error e => rw [hw] at h; simp at h
    | ok ls =>
      rw [hw] at h
      exact ih h (processWorklog_centi hw hc)

theorem processIssues_centi {detailed : Bool} {sdt edt : PyDateTime} :
    ∀ {issues : List Issue} {acc acc2 : List (String × ℚ) × List OutLine},
    processIssues detailed sdt edt acc issues = .ok acc2 →
    (∀ p ∈ acc.1, IsCenti p.2) → ∀ p ∈ acc2.1, IsCenti p.2 := by
  intro issues
  induction issues with
  | nil =>
    intro acc acc2 h hc
    simp [processIssues] at h
    rw [← h]
    exact hc
  | cons i rest ih =>
    intro acc acc2 h hc
    simp only [processIssues] at h
    cases hw : processWorklog detailed sdt edt i.key i.summary ⟨acc.1, acc.2, true⟩
        i.worklog with
    | error e => rw [hw] at h; simp at h
    | ok ls =>
      rw [hw] at h
      have hcont : (match processSubtasks detailed sdt edt
            (ls.developer_hours, ls.output) i.subtasks with
          | Except.error e =>
            (Except.error e : Except RunError (List (String × ℚ) × List OutLine))
          | Except.ok acc1 => processIssues detailed sdt edt acc1 rest) =
            Except.ok acc2 := h
      cases hs : processSubtasks detailed sdt edt (ls.developer_hours, ls.output)
          i.subtasks with
      | error e => rw [hs] at hcont; simp at hcont
      | ok acc1 =>
        rw [hs] at hcont
        exact ih hcont (processSubtasks_centi hs (processWorklog_centi hw hc))

/-- When every accumulated value is a whole number of hundredths, the
re-rounded displayed values sum to the same grand total as the raw ones. -/
theorem sum_map_round2_eq {h : List (String × ℚ)}
    (hc : ∀ p ∈ h, IsCenti p.2) :
    (h.map (fun p => round2 p.2)).sum = (h.map Prod.snd).sum := by
  induction h with
  | nil => rfl
  | cons p rest ih =>
    simp only [List.map_cons, List.sum_cons]
    rw [round2_of_isCenti (hc p (by simp)),
      ih (fun q hq => hc q (List.mem_cons_of_mem _ hq))]

theorem dtLt_irrefl (t : PyDateTime) : dtLt t t = false := by
  simp [dtLt]

/-! ### Claim theorems -/

/-- Claim C1: a work-log record (with a parseable `started` and an author
present in the table, so that the loop body completes) is counted into its
author's accumulated hours iff
`window.start < record.started < window.end`, with strict inequalities on
both ends; in particular a record whose `started` equals `window.start` or
`window.end` exactly leaves the state unchanged. -/
theorem claim_c1_strict_window_counting
    (detailed : Bool) (start_datetime end_datetime : PyDateTime)
    (key summary : String) (st : LoopState) (w : WorkItem) (dt : PyDateTime)
    (v : ℚ) (hp : parseWorklogStarted w.started = some dt)
    (hl : lookup2 st.developer_hours w.authorDisplayName = some v) :
    (∃ st', processWorkItem detailed start_datetime end_datetime key summary st w =
      .ok st') ∧
    ∀ st', processWorkItem detailed start_datetime end_datetime key summary st w =
        .ok st' →
      ((dtLt start_datetime dt = true ∧ dtLt dt end_datetime = true) →
        lookup2 st'.developer_hours w.authorDisplayName =
          some (v + round2 ((w.timeSpentSeconds : ℚ) / 3600))) ∧
      (¬(dtLt start_datetime dt = true ∧ dtLt dt end_datetime = true) → st' = st) ∧
      ((dt = start_datetime ∨ dt = end_datetime) → st' = st) := by
  have hmem : w.authorDisplayName ∈ st.developer_hours.map Prod.fst :=
    lookup2_isSome_iff.1 (by rw [hl]; rfl)
  by_cases hin : inWindow start_datetime end_datetime dt = true
  · have hsome : (addToKey st.developer_hours w.authorDisplayName
        (round2 ((w.timeSpentSeconds : ℚ) / 3600))).isSome = true :=
      addToKey_isSome_iff.2 hmem
    cases hadd : addToKey st.developer_hours w.authorDisplayName
        (round2 ((w.timeSpentSeconds : ℚ) / 3600)) with
    | none => rw [hadd] at hsome; simp at hsome
    | some h2 =>
      have hstep := @processWorkItem_inWindow_eq detailed start_datetime
        end_datetime key summary st w dt hp hin
      rw [hadd] at hstep
      constructor
      · exact ⟨_, hstep⟩
      · intro st' hst'
        rw [hstep] at hst'
        simp at hst'
        have hiff : dtLt start_datetime dt = true ∧ dtLt dt end_datetime = true := by
          unfold inWindow at hin
          simpa [Bool.and_eq_true] using hin
        refine ⟨fun _ => ?_, fun hcon => absurd hiff hcon, fun hbd => ?_⟩
        · rw [← hst']
          have := addToKey_lookup hadd w.authorDisplayName
          rw [if_pos rfl, hl] at this
          simpa using this
        · exfalso
          rcases hbd with hbd | hbd
          · rw [hbd] at hiff
            rw [dtLt_irrefl] at hiff
            simp at hiff
          · rw [hbd] at hiff
            rw [dtLt_irrefl] at hiff
            simp at hiff
  · have hstep := @processWorkItem_not_inWindow detailed start_datetime
      end_datetime key summary st w dt hp (by simpa using hin)
    constructor
    · exact ⟨st, hstep⟩
    · intro st' hst'
      rw [hstep] at hst'
      simp at hst'
      have hniff : ¬(dtLt start_datetime dt = true ∧ dtLt dt end_datetime = true) := by
        intro hcon
        exact hin (by unfold inWindow; rw [hcon.1, hcon.2]; rfl)
      exact ⟨fun hcon => absurd hcon hniff, fun _ => hst'.symm,
        fun _ => hst'.symm⟩

/-- Witness for C1 at a concrete record inside a January 2023 window. -/
theorem claim_c1_strict_window_counting_witness :
    lookup2 [("Greg Thain", (0 : ℚ) + round2 (((3600 : Nat) : ℚ) / 3600))]
      "Greg Thain" = some ((0 : ℚ) + round2 (((3600 : Nat) : ℚ) / 3600)) := by
  have h := (claim_c1_strict_window_counting false ⟨2023, 1, 1, 0, 0, 1, 0⟩
    ⟨2023, 1, 31, 23, 59, 59, 0⟩ "HTCONDOR-1" "Work" ⟨[("Greg Thain", 0)], [], true⟩
    ⟨"Greg Thain", "2023-01-15T10:00:00.000000-0600", 3600⟩
    ⟨2023, 1, 15, 10, 0, 0, 0⟩ 0 (by decide) rfl).2
  have hrun : processWorkItem false ⟨2023, 1, 1, 0, 0, 1, 0⟩
      ⟨2023, 1, 31, 23, 59, 59, 0⟩ "HTCONDOR-1" "Work"
      ⟨[("Greg Thain", 0)], [], true⟩
      ⟨"Greg Thain", "2023-01-15T10:00:00.000000-0600", 3600⟩ =
      .ok ⟨[("Greg Thain", (0 : ℚ) + round2 (((3600 : Nat) : ℚ) / 3600))], [], true⟩ :=
    rfl
  exact (h _ hrun).1 ⟨by decide, by decide⟩

/-- Claim C2 (amended to exact arithmetic): over exact rationals — the
idealisation of the script's float arithmetic — each in-window record
contributes its hours rounded to two decimals (the final table is the
zero-initialised table plus, per author, the sum of that author's rounded
in-window hours), and the reported grand total, a sum of the raw
accumulators, coincides with the sum of the per-author totals as displayed
after 2-decimal rounding.  Under the script's actual IEEE-754 double
arithmetic the coincidence fails (see the counterexample below): a raw
double accumulator need not be a whole number of hundredths. -/
theorem claim_c2_rounding_law
    (detailed : Bool) (start_datetime end_datetime : PyDateTime)
    (hours0 final : List (String × ℚ)) (out : List OutLine) (issues : List Issue)
    (hrun : processIssues detailed start_datetime end_datetime (hours0, []) issues =
      .ok (final, out))
    (hz : ∀ p ∈ hours0, p.2 = 0) :
    (∀ a v0, lookup2 hours0 a = some v0 →
      lookup2 final a = some (v0 +
        contribSum start_datetime end_datetime a (allWorkItems issues))) ∧
    total_hours_logged final = ((reportedAuthorHours final).map Prod.snd).sum := by
  constructor
  · intro a v0 hl
    have := processIssues_lookup hrun a
    simp only [] at this
    rw [this, hl]
    rfl
  · have hc0 : ∀ p ∈ (hours0, ([] : List OutLine)).1, IsCenti p.2 := by
      intro p hp
      rw [hz p hp]
      exact isCenti_zero
    have hc := processIssues_centi hrun hc0
    simp only [] at hc
    unfold total_hours_logged reportedAuthorHours
    rw [List.map_map]
    have : ((final.map (fun p => (p.1, round2 p.2))).map Prod.snd) =
        final.map (fun p => round2 p.2) := by
      rw [List.map_map]
      rfl
    calc (final.map Prod.snd).sum
        = (final.map (fun p => round2 p.2)).sum := (sum_map_round2_eq hc).symm
      _ = (final.map (Prod.snd ∘ fun p => (p.1, round2 p.2))).sum := rfl

/-- Witness for C2: one issue, one in-window record of 3600 seconds. -/
theorem claim_c2_rounding_law_witness :
    total_hours_logged
      [("Greg Thain", (0 : ℚ) + round2 (((3600 : Nat) : ℚ) / 3600))] =
    ((reportedAuthorHours
      [("Greg Thain", (0 : ℚ) + round2 (((3600 : Nat) : ℚ) / 3600))]).map
        Prod.snd).sum := by
  have hrun : processIssues false ⟨2023, 1, 1, 0, 0, 1, 0⟩
      ⟨2023, 1, 31, 23, 59, 59, 0⟩ ([("Greg Thain", 0)], [])
      [⟨"HTCONDOR-1", "Work",
        [⟨"Greg Thain", "2023-01-15T10:00:00.000000-0600", 3600⟩], []⟩] =
      .ok ([("Greg Thain", (0 : ℚ) + round2 (((3600 : Nat) : ℚ) / 3600))], []) := rfl
  exact (claim_c2_rounding_law false ⟨2023, 1, 1, 0, 0, 1, 0⟩
    ⟨2023, 1, 31, 23, 59, 59, 0⟩ [("Greg Thain", 0)] _ [] _ hrun
    (by intro p hp; rw [List.mem_singleton] at hp; rw [hp])).2

/-- Counterexample to claim C2 as stated: under the script's IEEE-754
double arithmetic (`accumulateF` is the real float accumulation of lines
115/132), an author with two in-window records of 360 and 720 seconds ends
with raw accumulator 0.1 + 0.2 = 0.30000000000000004 (the double
1351079888211149/2^52), while the displayed per-author line rounds it to
0.3 (the double 5404319552844595/2^54).  The grand total of line 139 sums
the raw accumulators, so it differs from the sum of the displayed
per-author values. -/
theorem claim_c2_counterexample :
    accumulateF 0
        [⟨"Greg Thain", "2023-01-15T10:00:00.000000-0600", 360⟩,
          ⟨"Greg Thain", "2023-01-16T10:00:00.000000-0600", 720⟩] =
      1351079888211149 / 4503599627370496 ∧
    pyRoundF2 (1351079888211149 / 4503599627370496) =
      5404319552844595 / 18014398509481984 ∧
    (1351079888211149 : ℚ) / 4503599627370496 ≠
      5404319552844595 / 18014398509481984 := by
  have hA : fdiv ((360 : Nat) : ℚ) 3600 = 3602879701896397 / 36028797018963968 := by
    unfold fdiv
    rw [show ((360 : Nat) : ℚ) / 3600 = 1 / 10 by norm_num,
      roundDouble_eval (1 / 10) (-4) (by norm_num) (by norm_num) (by norm_num)]
    norm_num [pyRound]
  have hB : fdiv ((720 : Nat) : ℚ) 3600 = 3602879701896397 / 18014398509481984 := by
    unfold fdiv
    rw [show ((720 : Nat) : ℚ) / 3600 = 1 / 5 by norm_num,
      roundDouble_eval (1 / 5) (-3) (by norm_num) (by norm_num) (by norm_num)]
    norm_num [pyRound]
  have hFh360 : floatHours ⟨"Greg Thain", "2023-01-15T10:00:00.000000-0600", 360⟩ =
      3602879701896397 / 36028797018963968 := by
    show pyRoundF2 (fdiv ((360 : Nat) : ℚ) 3600) = _
    rw [hA]
    unfold pyRoundF2
    rw [show round2 ((3602879701896397 : ℚ) / 36028797018963968) = 1 / 10 by
        unfold round2; norm_num [pyRound],
      roundDouble_eval (1 / 10) (-4) (by norm_num) (by norm_num) (by norm_num)]
    norm_num [pyRound]
  have hFh720 : floatHours ⟨"Greg Thain", "2023-01-16T10:00:00.000000-0600", 720⟩ =
      3602879701896397 / 18014398509481984 := by
    show pyRoundF2 (fdiv ((720 : Nat) : ℚ) 3600) = _
    rw [hB]
    unfold pyRoundF2
    rw [show round2 ((3602879701896397 : ℚ) / 18014398509481984) = 1 / 5 by
        unfold round2; norm_num [pyRound],
      roundDouble_eval (1 / 5) (-3) (by norm_num) (by norm_num) (by norm_num)]
    norm_num [pyRound]
  have hAdd0A : fadd 0 (3602879701896397 / 36028797018963968) =
      (3602879701896397 : ℚ) / 36028797018963968 := by
    unfold fadd
    rw [show (0 : ℚ) + 3602879701896397 / 36028797018963968 =
        3602879701896397 / 36028797018963968 by norm_num,
      roundDouble_eval (3602879701896397 / 36028797018963968) (-4)
        (by norm_num) (by norm_num) (by norm_num)]
    norm_num [pyRound]
  have hAddAB : fadd (3602879701896397 / 36028797018963968)
      (3602879701896397 / 18014398509481984) =
      (1351079888211149 : ℚ) / 4503599627370496 := by
    unfold fadd
    rw [show (3602879701896397 : ℚ) / 36028797018963968 +
        3602879701896397 / 18014398509481984 =
        10808639105689191 / 36028797018963968 by norm_num,
      roundDouble_eval (10808639105689191 / 36028797018963968) (-2)
        (by norm_num) (by norm_num) (by norm_num)]
    norm_num [pyRound]
  refine ⟨?_, ?_, by norm_num⟩
  · simp only [accumulateF]
    rw [hFh360, hAdd0A, hFh720, hAddAB]
  · unfold pyRoundF2
    rw [show round2 ((1351079888211149 : ℚ) / 4503599627370496) = 3 / 10 by
        unfold round2; norm_num [pyRound],
      roundDouble_eval (3 / 10) (-2) (by norm_num) (by norm_num) (by norm_num)]
    norm_num [pyRound]

/-- Claim C3: for roster size `n` and grand total `T`, the reported
percentage is `round(T * 100 / (40 * n))`, Python's `round` being
round-to-nearest with ties to even. -/
theorem claim_c3_percentage_formula (developer_hours : List (String × ℚ))
    (n : Nat) (T : ℚ) (hn : n = developer_hours.length)
    (hT : T = total_hours_logged developer_hours) :
    reportPercentage developer_hours = pyRound (T * 100 / (40 * (n : ℚ))) := by
  subst hn
  subst hT
  unfold reportPercentage
  congr 1
  ring

/-- Witness for C3 at the hard-coded nine-developer roster. -/
theorem claim_c3_percentage_formula_witness :
    reportPercentage developer_hours_init =
      pyRound (total_hours_logged developer_hours_init * 100 /
        (40 * ((9 : Nat) : ℚ))) :=
  claim_c3_percentage_formula developer_hours_init 9
    (total_hours_logged developer_hours_init) rfl rfl

/-- Claim C4: an in-window record whose author is missing from the
pre-declared table makes the run fail with the `KeyError` naming that
author — the record is not skipped and the loop does not continue — and no
table update can ever add a key. -/
theorem claim_c4_unknown_author_fatal
    (detailed : Bool) (start_datetime end_datetime : PyDateTime)
    (key summary : String) (st : LoopState) (pre rest : List WorkItem)
    (w : WorkItem) (dt : PyDateTime)
    (hpre : WorklogOk start_datetime end_datetime
      (st.developer_hours.map Prod.fst) pre)
    (hp : parseWorklogStarted w.started = some dt)
    (hin : inWindow start_datetime end_datetime dt = true)
    (hmiss : w.authorDisplayName ∉ st.developer_hours.map Prod.fst) :
    processWorklog detailed start_datetime end_datetime key summary st
        (pre ++ w :: rest) = .error (.keyError w.authorDisplayName) ∧
    ∀ (h : List (String × ℚ)) (a : String) (x : ℚ) (h2 : List (String × ℚ)),
      addToKey h a x = some h2 → h2.map Prod.fst = h.map Prod.fst := by
  constructor
  · obtain ⟨stm, heq, hkeys⟩ := processWorklog_reach hpre w rest
    rw [heq]
    have haddnone : addToKey stm.developer_hours w.authorDisplayName
        (round2 ((w.timeSpentSeconds : ℚ) / 3600)) = none := by
      cases hadd : addToKey stm.developer_hours w.authorDisplayName
          (round2 ((w.timeSpentSeconds : ℚ) / 3600)) with
      | none => rfl
      | some h2 =>
        exfalso
        apply hmiss
        rw [← hkeys]
        exact addToKey_isSome_iff.1 (by rw [hadd]; rfl)
    rw [processWorkItem_inWindow_eq hp hin, haddnone]
  · exact fun h a x h2 he => addToKey_keys he

/-- Witness for C4: an author outside the roster aborts the run. -/
theorem claim_c4_unknown_author_fatal_witness :
    processWorklog false ⟨2023, 1, 1, 0, 0, 1, 0⟩ ⟨2023, 1, 31, 23, 59, 59, 0⟩
      "HTCONDOR-1" "Work" ⟨[("Greg Thain", 0)], [], true⟩
      [⟨"Nobody", "2023-01-15T10:00:00.000000-0600", 3600⟩] =
      .error (.keyError "Nobody") :=
  (claim_c4_unknown_author_fatal false ⟨2023, 1, 1, 0, 0, 1, 0⟩
    ⟨2023, 1, 31, 23, 59, 59, 0⟩ "HTCONDOR-1" "Work"
    ⟨[("Greg Thain", 0)], [], true⟩ [] []
    ⟨"Nobody", "2023-01-15T10:00:00.000000-0600", 3600⟩ ⟨2023, 1, 15, 10, 0, 0, 0⟩
    (by intro x hx; simp at hx) (by decide) (by decide) (by decide)).1

/-- Claim C6: for two exactly-shaped, valid date arguments the constructed
window starts at 00:00:01 on the start day and ends at 23:59:59 on the end
day, both naive local times with zero microseconds. -/
theorem claim_c6_window_construction (s e : String) (ys ms ds ye me de : Nat)
    (hs : readYMD s = some (ys, ms, ds)) (hvs : validDate ys ms ds = true)
    (he : readYMD e = some (ye, me, de)) (hve : validDate ye me de = true) :
    parse_args_dates s e =
      .ok (⟨ys, ms, ds, 0, 0, 1, 0⟩, ⟨ye, me, de, 23, 59, 59, 0⟩) := by
  unfold parse_args_dates
  rw [readYMD_reMatch hs, readYMD_reMatch he,
    validateDateArg_start hs, validateDateArg_end he, if_pos hvs, if_pos hve]
  rfl

/-- Witness for C6 at the spec's example window. -/
theorem claim_c6_window_construction_witness :
    parse_args_dates "2023-01-01" "2023-01-31" =
      .ok (⟨2023, 1, 1, 0, 0, 1, 0⟩, ⟨2023, 1, 31, 23, 59, 59, 0⟩) :=
  claim_c6_window_construction "2023-01-01" "2023-01-31" 2023 1 1 2023 1 31
    (by decide) (by decide) (by decide) (by decide)

/-- Claim C7: in detailed mode, a work-log loop (an issue's own records or
one subtask's records both run this loop) emits nothing when no record is
in-window, and emits its header line exactly once when at least one record
is in-window, regardless of how many are. -/
theorem claim_c7_header_emission (start_datetime end_datetime : PyDateTime)
    (key summary : String) (h0 : List (String × ℚ)) (out0 : List OutLine)
    (l : List WorkItem) (st' : LoopState)
    (hrun : processWorklog true start_datetime end_datetime key summary
      ⟨h0, out0, true⟩ l = .ok st') :
    ((∀ w ∈ l, countedb start_datetime end_datetime w = false) →
      st'.output = out0) ∧
    ((∃ w ∈ l, countedb start_datetime end_datetime w = true) →
      countHeaders st'.output = countHeaders out0 + 1) := by
  obtain ⟨delta, hout, hempty, hcount⟩ := processWorklog_out hrun
  constructor
  · intro hnone
    rw [hout, hempty, List.append_nil]
    rw [List.all_eq_true]
    intro w hw
    rw [hnone w hw]
    rfl
  · rintro ⟨w, hwmem, hwcb⟩
    rw [hout, countHeaders_append, hcount]
    have hany : l.any (fun w => countedb start_datetime end_datetime w) = true :=
      List.any_eq_true.2 ⟨w, hwmem, hwcb⟩
    rw [hany]
    rfl

/-- Witness for C7: one in-window record yields exactly one header. -/
theorem claim_c7_header_emission_witness :
    countHeaders ((([] : List OutLine) ++
        [OutLine.issueHeader "HTCONDOR-1" "Work"]) ++
      [OutLine.workDetail "Greg Thain" (round2 (((3600 : Nat) : ℚ) / 3600))
        ⟨2023, 1, 15, 10, 0, 0, 0⟩]) = countHeaders ([] : List OutLine) + 1 := by
  have hrun : processWorklog true ⟨2023, 1, 1, 0, 0, 1, 0⟩
      ⟨2023, 1, 31, 23, 59, 59, 0⟩ "HTCONDOR-1" "Work"
      ⟨[("Greg Thain", 0)], [], true⟩
      [⟨"Greg Thain", "2023-01-15T10:00:00.000000-0600", 3600⟩] =
      .ok ⟨[("Greg Thain", (0 : ℚ) + round2 (((3600 : Nat) : ℚ) / 3600))],
        (([] : List OutLine) ++ [OutLine.issueHeader "HTCONDOR-1" "Work"]) ++
          [OutLine.workDetail "Greg Thain" (round2 (((3600 : Nat) : ℚ) / 3600))
            ⟨2023, 1, 15, 10, 0, 0, 0⟩], false⟩ := rfl
  exact (claim_c7_header_emission ⟨2023, 1, 1, 0, 0, 1, 0⟩
    ⟨2023, 1, 31, 23, 59, 59, 0⟩ "HTCONDOR-1" "Work" [("Greg Thain", 0)] [] _ _
    hrun).2 ⟨⟨"Greg Thain", "2023-01-15T10:00:00.000000-0600", 3600⟩,
      by simp, by decide⟩

/-- Claim C8 (amended to exact arithmetic): permuting the records fed to
one work-log loop cannot make it fail, and over exact rationals — the
idealisation of the script's float arithmetic — every author's final total
is unchanged.  Under the script's actual IEEE-754 double arithmetic the
totals are only order-independent up to the rounding of each float
addition and can differ in the last bit between orders (see the
counterexample below). -/
theorem claim_c8_order_independent_totals
    (detailed : Bool) (start_datetime end_datetime : PyDateTime)
    (key summary : String) (st st1 : LoopState) (l1 l2 : List WorkItem)
    (hperm : l1.Perm l2)
    (h1 : processWorklog detailed start_datetime end_datetime key summary st l1 =
      .ok st1) :
    (∃ st2, processWorklog detailed start_datetime end_datetime key summary st l2 =
      .ok st2) ∧
    ∀ st2, processWorklog detailed start_datetime end_datetime key summary st l2 =
        .ok st2 →
      ∀ a, lookup2 st2.developer_hours a = lookup2 st1.developer_hours a := by
  have hok1 := worklogOk_of_processWorklog h1
  have hok2 : WorklogOk start_datetime end_datetime
      (st.developer_hours.map Prod.fst) l2 :=
    fun w hw => hok1 w (hperm.mem_iff.2 hw)
  constructor
  · exact processWorklog_ok_of hok2
  · intro st2 h2 a
    rw [processWorklog_lookup h1 a, processWorklog_lookup h2 a,
      contribSum_perm hperm]

/-- Witness for C8: two in-window records in either order give the same
total for their author. -/
theorem claim_c8_order_independent_totals_witness :
    lookup2 [("Greg Thain",
        ((0 : ℚ) + round2 (((7200 : Nat) : ℚ) / 3600)) +
          round2 (((3600 : Nat) : ℚ) / 3600))] "Greg Thain" =
    lookup2 [("Greg Thain",
        ((0 : ℚ) + round2 (((3600 : Nat) : ℚ) / 3600)) +
          round2 (((7200 : Nat) : ℚ) / 3600))] "Greg Thain" := by
  have h1 : processWorklog false ⟨2023, 1, 1, 0, 0, 1, 0⟩
      ⟨2023, 1, 31, 23, 59, 59, 0⟩ "HTCONDOR-1" "Work"
      ⟨[("Greg Thain", 0)], [], true⟩
      [⟨"Greg Thain", "2023-01-15T10:00:00.000000-0600", 3600⟩,
       ⟨"Greg Thain", "2023-01-16T10:00:00.000000-0600", 7200⟩] =
      .ok ⟨[("Greg Thain",
        ((0 : ℚ) + round2 (((3600 : Nat) : ℚ) / 3600)) +
          round2 (((7200 : Nat) : ℚ) / 3600))], [], true⟩ := rfl
  have h2 : processWorklog false ⟨2023, 1, 1, 0, 0, 1, 0⟩
      ⟨2023, 1, 31, 23, 59, 59, 0⟩ "HTCONDOR-1" "Work"
      ⟨[("Greg Thain", 0)], [], true⟩
      [⟨"Greg Thain", "2023-01-16T10:00:00.000000-0600", 7200⟩,
       ⟨"Greg Thain", "2023-01-15T10:00:00.000000-0600", 3600⟩] =
      .ok ⟨[("Greg Thain",
        ((0 : ℚ) + round2 (((7200 : Nat) : ℚ) / 3600)) +
          round2 (((3600 : Nat) : ℚ) / 3600))], [], true⟩ := rfl
  exact (claim_c8_order_independent_totals false ⟨2023, 1, 1, 0, 0, 1, 0⟩
    ⟨2023, 1, 31, 23, 59, 59, 0⟩ "HTCONDOR-1" "Work"
    ⟨[("Greg Thain", 0)], [], true⟩ _ _ _
    (List.Perm.swap ⟨"Greg Thain", "2023-01-16T10:00:00.000000-0600", 7200⟩
      ⟨"Greg Thain", "2023-01-15T10:00:00.000000-0600", 3600⟩ [])
    h1).2 _ h2 "Greg Thain"

/-- Counterexample to claim C8 as stated: under the script's IEEE-754
double arithmetic (`accumulateF` is the real float accumulation of lines
115/132), the accumulated total is order-dependent — the same three
records of 360, 720 and 1080 seconds, fed in one order and in the reverse
order (a permutation), leave the accumulator at 0.6000000000000001 (the
double 5404319552844596/2^53) versus 0.6 (the double
5404319552844595/2^53). -/
theorem claim_c8_counterexample :
    ([⟨"Greg Thain", "2023-01-15T10:00:00.000000-0600", 360⟩,
      ⟨"Greg Thain", "2023-01-16T10:00:00.000000-0600", 720⟩,
      ⟨"Greg Thain", "2023-01-17T10:00:00.000000-0600", 1080⟩] :
        List WorkItem).Perm
      [⟨"Greg Thain", "2023-01-17T10:00:00.000000-0600", 1080⟩,
        ⟨"Greg Thain", "2023-01-16T10:00:00.000000-0600", 720⟩,
        ⟨"Greg Thain", "2023-01-15T10:00:00.000000-0600", 360⟩] ∧
    accumulateF 0
        [⟨"Greg Thain", "2023-01-15T10:00:00.000000-0600", 360⟩,
          ⟨"Greg Thain", "2023-01-16T10:00:00.000000-0600", 720⟩,
          ⟨"Greg Thain", "2023-01-17T10:00:00.000000-0600", 1080⟩] ≠
      accumulateF 0
        [⟨"Greg Thain", "2023-01-17T10:00:00.000000-0600", 1080⟩,
          ⟨"Greg Thain", "2023-01-16T10:00:00.000000-0600", 720⟩,
          ⟨"Greg Thain", "2023-01-15T10:00:00.000000-0600", 360⟩] := by
  have hA : fdiv ((360 : Nat) : ℚ) 3600 = 3602879701896397 / 36028797018963968 := by
    unfold fdiv
    rw [show ((360 : Nat) : ℚ) / 3600 = 1 / 10 by norm_num,
      roundDouble_eval (1 / 10) (-4) (by norm_num) (by norm_num) (by norm_num)]
    norm_num [pyRound]
  have hB : fdiv ((720 : Nat) : ℚ) 3600 = 3602879701896397 / 18014398509481984 := by
    unfold fdiv
    rw [show ((720 : Nat) : ℚ) / 3600 = 1 / 5 by norm_num,
      roundDouble_eval (1 / 5) (-3) (by norm_num) (by norm_num) (by norm_num)]
    norm_num [pyRound]
  have hC : fdiv ((1080 : Nat) : ℚ) 3600 = 5404319552844595 / 18014398509481984 := by
    unfold fdiv
    rw [show ((1080 : Nat) : ℚ) / 3600 = 3 / 10 by norm_num,
      roundDouble_eval (3 / 10) (-2) (by norm_num) (by norm_num) (by norm_num)]
    norm_num [pyRound]
  have hFh360 : floatHours ⟨"Greg Thain", "2023-01-15T10:00:00.000000-0600", 360⟩ =
      3602879701896397 / 36028797018963968 := by
    show pyRoundF2 (fdiv ((360 : Nat) : ℚ) 3600) = _
    rw [hA]
    unfold pyRoundF2
    rw [show round2 ((3602879701896397 : ℚ) / 36028797018963968) = 1 / 10 by
        unfold round2; norm_num [pyRound],
      roundDouble_eval (1 / 10) (-4) (by norm_num) (by norm_num) (by norm_num)]
    norm_num [pyRound]
  have hFh720 : floatHours ⟨"Greg Thain", "2023-01-16T10:00:00.000000-0600", 720⟩ =
      3602879701896397 / 18014398509481984 := by
    show pyRoundF2 (fdiv ((720 : Nat) : ℚ) 3600) = _
    rw [hB]
    unfold pyRoundF2
    rw [show round2 ((3602879701896397 : ℚ) / 18014398509481984) = 1 / 5 by
        unfold round2; norm_num [pyRound],
      roundDouble_eval (1 / 5) (-3) (by norm_num) (by norm_num) (by norm_num)]
    norm_num [pyRound]
  have hFh1080 : floatHours ⟨"Greg Thain", "2023-01-17T10:00:00.000000-0600", 1080⟩ =
      5404319552844595 / 18014398509481984 := by
    show pyRoundF2 (fdiv ((1080 : Nat) : ℚ) 3600) = _
    rw [hC]
    unfold pyRoundF2
    rw [show round2 ((5404319552844595 : ℚ) / 18014398509481984) = 3 / 10 by
        unfold round2; norm_num [pyRound],
      roundDouble_eval (3 / 10) (-2) (by norm_num) (by norm_num) (by norm_num)]
    norm_num [pyRound]
  have hAdd0A : fadd 0 (3602879701896397 / 36028797018963968) =
      (3602879701896397 : ℚ) / 36028797018963968 := by
    unfold fadd
    rw [show (0 : ℚ) + 3602879701896397 / 36028797018963968 =
        3602879701896397 / 36028797018963968 by norm_num,
      roundDouble_eval (3602879701896397 / 36028797018963968) (-4)
        (by norm_num) (by norm_num) (by norm_num)]
    norm_num [pyRound]
  have hAddAB : fadd (3602879701896397 / 36028797018963968)
      (3602879701896397 / 18014398509481984) =
      (1351079888211149 : ℚ) / 4503599627370496 := by
    unfold fadd
    rw [show (3602879701896397 : ℚ) / 36028797018963968 +
        3602879701896397 / 18014398509481984 =
        10808639105689191 / 36028797018963968 by norm_num,
      roundDouble_eval (10808639105689191 / 36028797018963968) (-2)
        (by norm_num) (by norm_num) (by norm_num)]
    norm_num [pyRound]
  have hAddSC : fadd (1351079888211149 / 4503599627370496)
      (5404319552844595 / 18014398509481984) =
      (1351079888211149 : ℚ) / 2251799813685248 := by
    unfold fadd
    rw [show (1351079888211149 : ℚ) / 4503599627370496 +
        5404319552844595 / 18014398509481984 =
        10808639105689191 / 18014398509481984 by norm_num,
      roundDouble_eval (10808639105689191 / 18014398509481984) (-1)
        (by norm_num) (by norm_num) (by norm_num)]
    norm_num [pyRound]
  have hAdd0C : fadd 0 (5404319552844595 / 18014398509481984) =
      (5404319552844595 : ℚ) / 18014398509481984 := by
    unfold fadd
    rw [show (0 : ℚ) + 5404319552844595 / 18014398509481984 =
        5404319552844595 / 18014398509481984 by norm_num,
      roundDouble_eval (5404319552844595 / 18014398509481984) (-2)
        (by norm_num) (by norm_num) (by norm_num)]
    norm_num [pyRound]
  have hAddCB : fadd (5404319552844595 / 18014398509481984)
      (3602879701896397 / 18014398509481984) = (1 : ℚ) / 2 := by
    unfold fadd
    rw [show (5404319552844595 : ℚ) / 18014398509481984 +
        3602879701896397 / 18014398509481984 = 1 / 2 by norm_num,
      roundDouble_eval (1 / 2) (-1) (by norm_num) (by norm_num) (by norm_num)]
    norm_num [pyRound]
  have hAddHalfA : fadd (1 / 2) (3602879701896397 / 36028797018963968) =
      (5404319552844595 : ℚ) / 9007199254740992 := by
    unfold fadd
    rw [show (1 : ℚ) / 2 + 3602879701896397 / 36028797018963968 =
        21617278211378381 / 36028797018963968 by norm_num,
      roundDouble_eval (21617278211378381 / 36028797018963968) (-1)
        (by norm_num) (by norm_num) (by norm_num)]
    norm_num [pyRound]
  refine ⟨by decide, ?_⟩
  have h1 : accumulateF 0
      [⟨"Greg Thain", "2023-01-15T10:00:00.000000-0600", 360⟩,
        ⟨"Greg Thain", "2023-01-16T10:00:00.000000-0600", 720⟩,
        ⟨"Greg Thain", "2023-01-17T10:00:00.000000-0600", 1080⟩] =
      (1351079888211149 : ℚ) / 2251799813685248 := by
    simp only [accumulateF]
    rw [hFh360, hAdd0A, hFh720, hAddAB, hFh1080, hAddSC]
  have h2 : accumulateF 0
      [⟨"Greg Thain", "2023-01-17T10:00:00.000000-0600", 1080⟩,
        ⟨"Greg Thain", "2023-01-16T10:00:00.000000-0600", 720⟩,
        ⟨"Greg Thain", "2023-01-15T10:00:00.000000-0600", 360⟩] =
      (5404319552844595 : ℚ) / 9007199254740992 := by
    simp only [accumulateF]
    rw [hFh1080, hAdd0C, hFh720, hAddCB, hFh360, hAddHalfA]
  rw [h1, h2]
  norm_num

/-- Claim C9: any invocation whose `sys.argv` length (program name included)
is neither 5 nor 6 yields the usage-to-stderr, non-zero-exit path, whatever
the date strings are — before any date validation and before any remote
call. -/
theorem claim_c9_usage_on_bad_argc (argv : List String)
    (startStr endStr : String) (detailed : Bool)
    (h5 : argv.length ≠ 5) (h6 : argv.length ≠ 6) :
    parse_args argv startStr endStr detailed = .usage := by
  unfold parse_args
  rw [if_neg]
  rintro (h | h)
  · exact h5 h
  · exact h6 h

/-- Witness for C9: a bare invocation (argc = 1). -/
theorem claim_c9_usage_on_bad_argc_witness :
    parse_args ["prog"] "2023-01-01" "2023-01-31" false = .usage :=
  claim_c9_usage_on_bad_argc ["prog"] "2023-01-01" "2023-01-31" false
    (by decide) (by decide)

/-- Claim C10: a `started` string only parses when it carries a
fractional-second part (`.` plus one to six digits) followed by the literal
fixed suffix `-0600` at the very end; and a record whose `started` string
does not parse aborts the whole run with the strptime error, for every
window — i.e. before the record is classified as in- or out-of-window. -/
theorem claim_c10_started_format :
    (∀ (s : String) (dt : PyDateTime), parseWorklogStarted s = some dt →
      ∃ t ds, s.data = t ++ '.' :: (ds ++ ['-', '0', '6', '0', '0']) ∧
        ds ≠ [] ∧ (∀ c ∈ ds, isDigit c = true) ∧ ds.length ≤ 6) ∧
    (∀ (detailed : Bool) (start_datetime end_datetime : PyDateTime)
      (key summary : String) (st : LoopState) (pre rest : List WorkItem)
      (w : WorkItem),
      WorklogOk start_datetime end_datetime
        (st.developer_hours.map Prod.fst) pre →
      parseWorklogStarted w.started = none →
      processWorklog detailed start_datetime end_datetime key summary st
        (pre ++ w :: rest) = .error (.strptimeError w.started)) := by
  constructor
  · intro s dt h
    obtain ⟨y, m, d, r5, r6, hh, mi, ss, r11, r12, ds, hY, hT, hH, hDot, hLD,
      hds1, hds6, hvd, hdt⟩ := parseWorklogStarted_inv h
    have hsuf : r11 <:+ s.data := by
      obtain ⟨x, hx⟩ := expectTee_shape hT
      calc r11 <:+ r6 := parseHms_suffix hH
        _ <:+ r5 := by rw [hx]; exact List.suffix_cons x r6
        _ <:+ s.data := parseYmd_suffix hY
    obtain ⟨t, ht⟩ := hsuf
    have h12 : r11 = '.' :: r12 := expectChar_shape hDot
    have hsplit := leadingDigits_split r12
    rw [hLD] at hsplit
    refine ⟨t, ds, ?_, ?_, hsplit.2, hds6⟩
    · rw [← ht, h12, ← hsplit.1]
    · intro hnil
      rw [hnil] at hds1
      simp at hds1
  · intro detailed sdt edt key summary st pre rest w hpre hpnone
    obtain ⟨stm, heq, -⟩ := processWorklog_reach hpre w rest
    rw [heq, processWorkItem_parse_none hpnone]

/-- Witness for C10: a `started` string without fractional seconds aborts
the run with the strptime error. -/
theorem claim_c10_started_format_witness :
    processWorklog false ⟨2023, 1, 1, 0, 0, 1, 0⟩ ⟨2023, 1, 31, 23, 59, 59, 0⟩
      "HTCONDOR-1" "Work" ⟨[("Greg Thain", 0)], [], true⟩
      [⟨"Greg Thain", "2023-01-15T10:00:00-0600", 3600⟩] =
      .error (.strptimeError "2023-01-15T10:00:00-0600") :=
  claim_c10_started_format.2 false ⟨2023, 1, 1, 0, 0, 1, 0⟩
    ⟨2023, 1, 31, 23, 59, 59, 0⟩ "HTCONDOR-1" "Work"
    ⟨[("Greg Thain", 0)], [], true⟩ [] []
    ⟨"Greg Thain", "2023-01-15T10:00:00-0600", 3600⟩
    (by intro x hx; simp at hx) (by decide)

